import Mathlib

/-!
# Webhook configuration downgrade (`pkg/webhook/conv.go`)

A shallow embedding of the functions that convert `admissionregistration/v1`
webhook entries into `admissionregistration/v1beta1` entries, together with
the properties of that conversion.

Conventions of the embedding:

* a Go slice value is a `Slice α`: either the nil slice or a non-nil slice
  holding a list of elements;
* a Go pointer that is only ever tested for nil and dereferenced is an
  `Option`;
* a run-time panic (nil dereference, index out of range) is the `Except`
  error result `Fault`.
-/

namespace Webhook

/-! ## Go run-time values -/

/-- Run-time panics that the converted code can raise. -/
inductive Fault where
  | nilDereference
  | indexOutOfRange
  deriving DecidableEq, Repr

/-- A Go slice value: the nil slice, or a non-nil slice with its elements. -/
inductive Slice (α : Type) where
  | null : Slice α
  | of : List α → Slice α
  deriving DecidableEq, Repr

namespace Slice

variable {α : Type}

/-- The elements a `range` loop visits; the nil slice has none. -/
def elems : Slice α → List α
  | null => []
  | of xs => xs

/-- Go `len(s)`. -/
def len (s : Slice α) : Nat := s.elems.length

/-- Go `s == nil`. -/
def isNil : Slice α → Bool
  | null => true
  | of _ => false

/-- Go `append(s, x)`: the result is never nil. -/
def append (s : Slice α) (x : α) : Slice α := of (s.elems ++ [x])

/-- Go `make([]T, n)` for an element type whose zero value is `zero`. -/
def make (zero : α) (n : Nat) : Slice α := of (List.replicate n zero)

/-- Go `s[i] = x`: panics when `i` is not below `len(s)`. -/
def setIdx (s : Slice α) (i : Nat) (x : α) : Except Fault (Slice α) :=
  if i < s.len then .ok (of (s.elems.set i x)) else .error .indexOutOfRange

end Slice

/-- A byte of a `[]byte`. -/
abbrev Byte := Fin 256

/-- Dereference of a Go pointer: panics on nil. -/
def deref {α : Type} : Option α → Except Fault α
  | none => .error .nilDereference
  | some a => .ok a

/-! ## Shared API types (`k8s.io/apimachinery/pkg/apis/meta/v1`) -/

/-- Modelled from the spec: `metav1.LabelSelectorRequirement` is declared
outside the source tree; one requirement of a label selector. -/
structure LabelSelectorRequirement where
  Key : String
  Operator : String
  Values : Slice String
  deriving DecidableEq, Repr

/-- Modelled from the spec: `metav1.LabelSelector` is declared outside the
source tree; it is the type of the `NamespaceSelector` and `ObjectSelector`
fields, which the conversion never reads. -/
structure LabelSelector where
  MatchLabels : List (String × String)
  MatchExpressions : Slice LabelSelectorRequirement
  deriving DecidableEq, Repr

/-! ## The canonical schema (`k8s.io/api/admissionregistration/v1`) -/

namespace V1

/-- Modelled from the spec: `v1.FailurePolicyType` is declared outside the
source tree as a named string type. -/
structure FailurePolicyType where
  val : String
  deriving DecidableEq, Repr

/-- Modelled from the spec: `v1.MatchPolicyType` is declared outside the
source tree as a named string type. -/
structure MatchPolicyType where
  val : String
  deriving DecidableEq, Repr

/-- Modelled from the spec: `v1.SideEffectClass` is declared outside the
source tree as a named string type. -/
structure SideEffectClass where
  val : String
  deriving DecidableEq, Repr

/-- Modelled from the spec: `v1.OperationType` is declared outside the
source tree as a named string type. -/
structure OperationType where
  val : String
  deriving DecidableEq, Repr

/-- Modelled from the spec: `v1.ScopeType` is declared outside the source
tree as a named string type. -/
structure ScopeType where
  val : String
  deriving DecidableEq, Repr

/-- Modelled from the spec: `v1.ReinvocationPolicyType` is declared outside
the source tree as a named string type. -/
structure ReinvocationPolicyType where
  val : String
  deriving DecidableEq, Repr

/-- Modelled from the spec: `v1.ServiceReference` is declared outside the
source tree; `Path` and `Port` are pointers there. -/
structure ServiceReference where
  Namespace : String
  Name : String
  Path : Option String
  Port : Option Int
  deriving DecidableEq, Repr

/-- Modelled from the spec: `v1.WebhookClientConfig` is declared outside the
source tree; `URL` and `Service` are pointers, `CABundle` a byte slice. -/
structure WebhookClientConfig where
  URL : Option String
  Service : Option ServiceReference
  CABundle : Slice Byte
  deriving DecidableEq, Repr

/-- Modelled from the spec: `v1.Rule` is declared outside the source tree. -/
structure Rule where
  APIGroups : Slice String
  APIVersions : Slice String
  Resources : Slice String
  Scope : Option ScopeType
  deriving DecidableEq, Repr

/-- Modelled from the spec: `v1.RuleWithOperations` is declared outside the
source tree; it embeds `Rule`. -/
structure RuleWithOperations where
  Operations : Slice OperationType
  Rule : Rule
  deriving DecidableEq, Repr

/-- Modelled from the spec: `v1.MutatingWebhook` is declared outside the
source tree. -/
structure MutatingWebhook where
  Name : String
  ClientConfig : WebhookClientConfig
  Rules : Slice RuleWithOperations
  FailurePolicy : Option FailurePolicyType
  MatchPolicy : Option MatchPolicyType
  NamespaceSelector : Option LabelSelector
  ObjectSelector : Option LabelSelector
  SideEffects : Option SideEffectClass
  TimeoutSeconds : Option Int
  AdmissionReviewVersions : Slice String
  ReinvocationPolicy : Option ReinvocationPolicyType
  deriving DecidableEq, Repr

/-- Modelled from the spec: `v1.ValidatingWebhook` is declared outside the
source tree. -/
structure ValidatingWebhook where
  Name : String
  ClientConfig : WebhookClientConfig
  Rules : Slice RuleWithOperations
  FailurePolicy : Option FailurePolicyType
  MatchPolicy : Option MatchPolicyType
  NamespaceSelector : Option LabelSelector
  ObjectSelector : Option LabelSelector
  SideEffects : Option SideEffectClass
  TimeoutSeconds : Option Int
  AdmissionReviewVersions : Slice String
  deriving DecidableEq, Repr

end V1

/-! ## The legacy schema (`k8s.io/api/admissionregistration/v1beta1`) -/

namespace V1beta1

/-- Modelled from the spec: `v1beta1.FailurePolicyType` is declared outside
the source tree as a named string type. -/
structure FailurePolicyType where
  val : String
  deriving DecidableEq, Repr

/-- Modelled from the spec: `v1beta1.MatchPolicyType` is declared outside
the source tree as a named string type. -/
structure MatchPolicyType where
  val : String
  deriving DecidableEq, Repr

/-- Modelled from the spec: `v1beta1.SideEffectClass` is declared outside
the source tree as a named string type. -/
structure SideEffectClass where
  val : String
  deriving DecidableEq, Repr

/-- Modelled from the spec: `v1beta1.OperationType` is declared outside the
source tree as a named string type. -/
structure OperationType where
  val : String
  deriving DecidableEq, Repr

/-- Modelled from the spec: `v1beta1.ScopeType` is declared outside the
source tree as a named string type. -/
structure ScopeType where
  val : String
  deriving DecidableEq, Repr

/-- Modelled from the spec: `v1beta1.ReinvocationPolicyType` is declared
outside the source tree as a named string type. -/
structure ReinvocationPolicyType where
  val : String
  deriving DecidableEq, Repr

/-- Modelled from the spec: `v1beta1.ServiceReference` is declared outside
the source tree. -/
structure ServiceReference where
  Namespace : String
  Name : String
  Path : Option String
  Port : Option Int
  deriving DecidableEq, Repr

/-- Modelled from the spec: `v1beta1.WebhookClientConfig` is declared
outside the source tree. -/
structure WebhookClientConfig where
  URL : Option String
  Service : Option ServiceReference
  CABundle : Slice Byte
  deriving DecidableEq, Repr

/-- Modelled from the spec: `v1beta1.Rule` is declared outside the source
tree. -/
structure Rule where
  APIGroups : Slice String
  APIVersions : Slice String
  Resources : Slice String
  Scope : Option ScopeType
  deriving DecidableEq, Repr

/-- Modelled from the spec: `v1beta1.RuleWithOperations` is declared outside
the source tree; it embeds `Rule`. -/
structure RuleWithOperations where
  Operations : Slice OperationType
  Rule : Rule
  deriving DecidableEq, Repr

/-- Modelled from the spec: `v1beta1.MutatingWebhook` is declared outside
the source tree. -/
structure MutatingWebhook where
  Name : String
  ClientConfig : WebhookClientConfig
  Rules : Slice RuleWithOperations
  FailurePolicy : Option FailurePolicyType
  MatchPolicy : Option MatchPolicyType
  NamespaceSelector : Option LabelSelector
  ObjectSelector : Option LabelSelector
  SideEffects : Option SideEffectClass
  TimeoutSeconds : Option Int
  AdmissionReviewVersions : Slice String
  ReinvocationPolicy : Option ReinvocationPolicyType
  deriving DecidableEq, Repr

/-- Modelled from the spec: `v1beta1.ValidatingWebhook` is declared outside
the source tree. -/
structure ValidatingWebhook where
  Name : String
  ClientConfig : WebhookClientConfig
  Rules : Slice RuleWithOperations
  FailurePolicy : Option FailurePolicyType
  MatchPolicy : Option MatchPolicyType
  NamespaceSelector : Option LabelSelector
  ObjectSelector : Option LabelSelector
  SideEffects : Option SideEffectClass
  TimeoutSeconds : Option Int
  AdmissionReviewVersions : Slice String
  deriving DecidableEq, Repr

/-- The zero value of `OperationType`, with which `make` fills a slice. -/
def zeroOperationType : OperationType := ⟨""⟩

/-- The zero value of `RuleWithOperations`, with which `make` fills a slice. -/
def zeroRuleWithOperations : RuleWithOperations :=
  { Operations := .null
    Rule := { APIGroups := .null, APIVersions := .null, Resources := .null, Scope := none } }

end V1beta1

/-! ## The conversion functions of `conv.go` -/

/-- The loop `for i, x := range xs { body }`, threading the variables the
body assigns as a state; `i` is the index of the first element of `xs`. -/
def rangeLoop {α σ : Type} (body : Nat → α → σ → Except Fault σ) :
    Nat → List α → σ → Except Fault σ
  | _, [], s => .ok s
  | i, x :: xs, s =>
    match body i x s with
    | .error e => .error e
    | .ok s' => rangeLoop body (i + 1) xs s'

/-- The function `v1Tov1beta1ClientConfig`: dereferences `Service` without a nil check. -/
def v1Tov1beta1ClientConfig (v1ClientConfig : V1.WebhookClientConfig) :
    Except Fault V1beta1.WebhookClientConfig :=
  match deref v1ClientConfig.Service with
  | .error e => .error e
  | .ok svc =>
    .ok { URL := none
          Service := some { Name := svc.Name, Namespace := svc.Namespace,
                            Path := svc.Path, Port := none }
          CABundle := v1ClientConfig.CABundle }

/-- The function `v1Tov1beta1FailurePolicy`. -/
def v1Tov1beta1FailurePolicy :
    Option V1.FailurePolicyType → Option V1beta1.FailurePolicyType
  | none => none
  | some p => some ⟨p.val⟩

/-- The function `v1Tov1beta1MatchPolicy`. -/
def v1Tov1beta1MatchPolicy :
    Option V1.MatchPolicyType → Option V1beta1.MatchPolicyType
  | none => none
  | some p => some ⟨p.val⟩

/-- The function `v1Tov1beta1SideEffects`. -/
def v1Tov1beta1SideEffects :
    Option V1.SideEffectClass → Option V1beta1.SideEffectClass
  | none => none
  | some p => some ⟨p.val⟩

/-- The inner loop of `v1Tov1beta1Rules`: allocate `len(Operations)` slots
and convert each operation into its slot. -/
def v1Tov1beta1Rules.operations (ops : Slice V1.OperationType) :
    Except Fault (Slice V1beta1.OperationType) :=
  rangeLoop
    (fun j (v1Operation : V1.OperationType) (v1beta1Operations : Slice V1beta1.OperationType) =>
      v1beta1Operations.setIdx j ⟨v1Operation.val⟩)
    0 ops.elems (Slice.make V1beta1.zeroOperationType ops.len)

/-- The function `v1Tov1beta1Rules`. -/
def v1Tov1beta1Rules (v1Rules : Slice V1.RuleWithOperations) :
    Except Fault (Slice V1beta1.RuleWithOperations) :=
  rangeLoop
    (fun i (v1Rule : V1.RuleWithOperations) (v1beta1Rules : Slice V1beta1.RuleWithOperations) =>
      match v1Tov1beta1Rules.operations v1Rule.Operations with
      | .error e => .error e
      | .ok v1beta1Operations =>
        v1beta1Rules.setIdx i
          { Rule := { APIGroups := v1Rule.Rule.APIGroups
                      APIVersions := v1Rule.Rule.APIVersions
                      Resources := v1Rule.Rule.Resources
                      Scope := none }
            Operations := v1beta1Operations })
    0 v1Rules.elems (Slice.make V1beta1.zeroRuleWithOperations v1Rules.len)

/-- The function `v1Tov1beta1MutatingWebhooks`. -/
def v1Tov1beta1MutatingWebhooks (v1webhooks : Slice V1.MutatingWebhook) :
    Except Fault (Slice V1beta1.MutatingWebhook) :=
  rangeLoop
    (fun _ (v1webhook : V1.MutatingWebhook) (v1beta1webhooks : Slice V1beta1.MutatingWebhook) =>
      match v1Tov1beta1ClientConfig v1webhook.ClientConfig with
      | .error e => .error e
      | .ok clientConfig =>
        match v1Tov1beta1Rules v1webhook.Rules with
        | .error e => .error e
        | .ok rules =>
          .ok (v1beta1webhooks.append
            { Name := v1webhook.Name
              ClientConfig := clientConfig
              FailurePolicy := v1Tov1beta1FailurePolicy v1webhook.FailurePolicy
              MatchPolicy := v1Tov1beta1MatchPolicy v1webhook.MatchPolicy
              SideEffects := v1Tov1beta1SideEffects v1webhook.SideEffects
              Rules := rules
              NamespaceSelector := none
              ObjectSelector := none
              TimeoutSeconds := none
              AdmissionReviewVersions := .null
              ReinvocationPolicy := none }))
    0 v1webhooks.elems .null

/-- The function `v1Tov1beta1ValidatingWebhooks`. -/
def v1Tov1beta1ValidatingWebhooks (v1webhooks : Slice V1.ValidatingWebhook) :
    Except Fault (Slice V1beta1.ValidatingWebhook) :=
  rangeLoop
    (fun _ (v1webhook : V1.ValidatingWebhook) (v1beta1webhooks : Slice V1beta1.ValidatingWebhook) =>
      match v1Tov1beta1ClientConfig v1webhook.ClientConfig with
      | .error e => .error e
      | .ok clientConfig =>
        match v1Tov1beta1Rules v1webhook.Rules with
        | .error e => .error e
        | .ok rules =>
          .ok (v1beta1webhooks.append
            { Name := v1webhook.Name
              ClientConfig := clientConfig
              FailurePolicy := v1Tov1beta1FailurePolicy v1webhook.FailurePolicy
              MatchPolicy := v1Tov1beta1MatchPolicy v1webhook.MatchPolicy
              SideEffects := v1Tov1beta1SideEffects v1webhook.SideEffects
              Rules := rules
              NamespaceSelector := none
              ObjectSelector := none
              TimeoutSeconds := none
              AdmissionReviewVersions := .null }))
    0 v1webhooks.elems .null

/-! ## Specification-side images of single elements

These functions are not in the source: they name what one loop iteration
stores, so that the loops can be compared with element-wise maps. -/

/-- The legacy operation with the same underlying string. -/
def operationImage (o : V1.OperationType) : V1beta1.OperationType := ⟨o.val⟩

/-- The legacy rule that one iteration of `v1Tov1beta1Rules` stores. -/
def ruleImage (r : V1.RuleWithOperations) : V1beta1.RuleWithOperations :=
  { Rule := { APIGroups := r.Rule.APIGroups
              APIVersions := r.Rule.APIVersions
              Resources := r.Rule.Resources
              Scope := none }
    Operations := .of (r.Operations.elems.map operationImage) }

/-- The body of a loop that appends the image of each element, faulting
when the image faults. -/
def appendStep {α β : Type} (g : α → Except Fault β) :
    Nat → α → Slice β → Except Fault (Slice β) :=
  fun _ x s =>
    match g x with
    | .error e => .error e
    | .ok y => .ok (s.append y)

/-- What a loop of appends leaves in the accumulator. -/
def appendAll {β : Type} (s : Slice β) : List β → Slice β
  | [] => s
  | y :: ys => .of (s.elems ++ y :: ys)

/-- The legacy client configuration that `v1Tov1beta1ClientConfig` builds
when `Service` is set. -/
def clientConfigImage (c : V1.WebhookClientConfig) : V1beta1.WebhookClientConfig :=
  { URL := none
    Service := c.Service.map fun svc =>
      { Name := svc.Name, Namespace := svc.Namespace, Path := svc.Path, Port := none }
    CABundle := c.CABundle }

/-- The legacy entry that one iteration of `v1Tov1beta1MutatingWebhooks` appends. -/
def mutatingImage (w : V1.MutatingWebhook) : V1beta1.MutatingWebhook :=
  { Name := w.Name
    ClientConfig := clientConfigImage w.ClientConfig
    FailurePolicy := v1Tov1beta1FailurePolicy w.FailurePolicy
    MatchPolicy := v1Tov1beta1MatchPolicy w.MatchPolicy
    SideEffects := v1Tov1beta1SideEffects w.SideEffects
    Rules := .of (w.Rules.elems.map ruleImage)
    NamespaceSelector := none
    ObjectSelector := none
    TimeoutSeconds := none
    AdmissionReviewVersions := .null
    ReinvocationPolicy := none }

/-- The legacy entry that one iteration of `v1Tov1beta1ValidatingWebhooks` appends. -/
def validatingImage (w : V1.ValidatingWebhook) : V1beta1.ValidatingWebhook :=
  { Name := w.Name
    ClientConfig := clientConfigImage w.ClientConfig
    FailurePolicy := v1Tov1beta1FailurePolicy w.FailurePolicy
    MatchPolicy := v1Tov1beta1MatchPolicy w.MatchPolicy
    SideEffects := v1Tov1beta1SideEffects w.SideEffects
    Rules := .of (w.Rules.elems.map ruleImage)
    NamespaceSelector := none
    ObjectSelector := none
    TimeoutSeconds := none
    AdmissionReviewVersions := .null }

/-- One iteration of `v1Tov1beta1MutatingWebhooks`, up to the append. -/
def mutatingEntry (w : V1.MutatingWebhook) : Except Fault V1beta1.MutatingWebhook :=
  match v1Tov1beta1ClientConfig w.ClientConfig with
  | .error e => .error e
  | .ok _ => .ok (mutatingImage w)

/-- One iteration of `v1Tov1beta1ValidatingWebhooks`, up to the append. -/
def validatingEntry (w : V1.ValidatingWebhook) : Except Fault V1beta1.ValidatingWebhook :=
  match v1Tov1beta1ClientConfig w.ClientConfig with
  | .error e => .error e
  | .ok _ => .ok (validatingImage w)

/-- Every entry of a list of mutating webhooks has its `Service` set. -/
def AllServicesSetM (W : Slice V1.MutatingWebhook) : Prop :=
  ∀ w ∈ W.elems, w.ClientConfig.Service ≠ none

/-- Every entry of a list of validating webhooks has its `Service` set. -/
def AllServicesSetV (W : Slice V1.ValidatingWebhook) : Prop :=
  ∀ w ∈ W.elems, w.ClientConfig.Service ≠ none

instance (W : Slice V1.MutatingWebhook) : Decidable (AllServicesSetM W) := by
  unfold AllServicesSetM; infer_instance

instance (W : Slice V1.ValidatingWebhook) : Decidable (AllServicesSetV W) := by
  unfold AllServicesSetV; infer_instance

/-! ## Scenario A of the specification -/

/-- The rule of Scenario A: `apps/v1/deployments` with `CREATE`, `UPDATE`. -/
def scenarioARule : V1.RuleWithOperations :=
  { Operations := .of [⟨"CREATE"⟩, ⟨"UPDATE"⟩]
    Rule := { APIGroups := .of ["apps"], APIVersions := .of ["v1"],
              Resources := .of ["deployments"], Scope := none } }

/-- The canonical entry of Scenario A, for a given CA bundle. -/
def scenarioA (bundle : Slice Byte) : V1.MutatingWebhook :=
  { Name := "webhook.example.com"
    ClientConfig :=
      { URL := none
        Service := some { Name := "svc", Namespace := "ns", Path := some "/mutate", Port := none }
        CABundle := bundle }
    Rules := .of [scenarioARule]
    FailurePolicy := some ⟨"Fail"⟩
    MatchPolicy := some ⟨"Equivalent"⟩
    NamespaceSelector := none
    ObjectSelector := none
    SideEffects := some ⟨"None"⟩
    TimeoutSeconds := none
    AdmissionReviewVersions := .null
    ReinvocationPolicy := none }

/-- The legacy entry expected in Scenario A: the same field values and the
same enum strings. -/
def scenarioALegacy (bundle : Slice Byte) : V1beta1.MutatingWebhook :=
  { Name := "webhook.example.com"
    ClientConfig :=
      { URL := none
        Service := some { Name := "svc", Namespace := "ns", Path := some "/mutate", Port := none }
        CABundle := bundle }
    Rules := .of [{ Operations := .of [⟨"CREATE"⟩, ⟨"UPDATE"⟩]
                    Rule := { APIGroups := .of ["apps"], APIVersions := .of ["v1"],
                              Resources := .of ["deployments"], Scope := none } }]
    FailurePolicy := some ⟨"Fail"⟩
    MatchPolicy := some ⟨"Equivalent"⟩
    NamespaceSelector := none
    ObjectSelector := none
    SideEffects := some ⟨"None"⟩
    TimeoutSeconds := none
    AdmissionReviewVersions := .null
    ReinvocationPolicy := none }

/-- A validating entry with the mapped fields of Scenario A and every
unmapped field populated. -/
def sampleValidating : V1.ValidatingWebhook :=
  { Name := "validate.example.com"
    ClientConfig :=
      { URL := some "https://example.com/validate"
        Service := some { Name := "svc", Namespace := "ns", Path := none, Port := some 8443 }
        CABundle := .of [1, 2, 255] }
    Rules := .of [scenarioARule]
    FailurePolicy := none
    MatchPolicy := some ⟨"Exact"⟩
    NamespaceSelector := some { MatchLabels := [("env", "prod")], MatchExpressions := .null }
    ObjectSelector := none
    SideEffects := none
    TimeoutSeconds := some 10
    AdmissionReviewVersions := .of ["v1", "v1beta1"] }

/-- A mutating entry whose client configuration names a URL and no service. -/
def urlOnlyMutating : V1.MutatingWebhook :=
  { Name := "url.example.com"
    ClientConfig := { URL := some "https://example.com/mutate", Service := none, CABundle := .null }
    Rules := .null
    FailurePolicy := none
    MatchPolicy := none
    NamespaceSelector := none
    ObjectSelector := none
    SideEffects := none
    TimeoutSeconds := none
    AdmissionReviewVersions := .null
    ReinvocationPolicy := none }

/-! ## Agreement between mutating and validating entries -/

/-- A canonical mutating entry and a canonical validating entry agree on
the fields the mappers read. -/
def AgreeCanonical (m : V1.MutatingWebhook) (v : V1.ValidatingWebhook) : Prop :=
  m.Name = v.Name ∧ m.ClientConfig = v.ClientConfig ∧ m.FailurePolicy = v.FailurePolicy ∧
    m.MatchPolicy = v.MatchPolicy ∧ m.SideEffects = v.SideEffects ∧ m.Rules = v.Rules

/-- A legacy mutating entry and a legacy validating entry agree on the
fields the mappers write. -/
def AgreeLegacy (m : V1beta1.MutatingWebhook) (v : V1beta1.ValidatingWebhook) : Prop :=
  m.Name = v.Name ∧ m.ClientConfig = v.ClientConfig ∧ m.FailurePolicy = v.FailurePolicy ∧
    m.MatchPolicy = v.MatchPolicy ∧ m.SideEffects = v.SideEffects ∧ m.Rules = v.Rules

instance (m : V1.MutatingWebhook) (v : V1.ValidatingWebhook) : Decidable (AgreeCanonical m v) := by
  unfold AgreeCanonical; infer_instance

instance (m : V1beta1.MutatingWebhook) (v : V1beta1.ValidatingWebhook) :
    Decidable (AgreeLegacy m v) := by
  unfold AgreeLegacy; infer_instance

/-- A validating entry that agrees with the Scenario A entry on the mapped
fields and differs in unmapped ones. -/
def scenarioAValidating (bundle : Slice Byte) : V1.ValidatingWebhook :=
  { Name := "webhook.example.com"
    ClientConfig := (scenarioA bundle).ClientConfig
    Rules := .of [scenarioARule]
    FailurePolicy := some ⟨"Fail"⟩
    MatchPolicy := some ⟨"Equivalent"⟩
    NamespaceSelector := none
    ObjectSelector := none
    SideEffects := some ⟨"None"⟩
    TimeoutSeconds := some 30
    AdmissionReviewVersions := .of ["v1"] }

/-! ## Storage model of the rule mapper

The value-level functions above identify a slice with its elements. To
speak about which backing arrays the result shares with the input, the rule
mapper is embedded a second time over an explicit heap: a slice is a header
(array address, offset, length), assigning a slice copies the header, and
`make` allocates a new array. `none` stands for a run-time panic or for a
header that does not denote an array of the heap. -/

namespace Mem

/-- The address of an object of the heap. -/
abbrev Addr := Nat

/-- A slice header; `ptr = none` is the nil slice. The capacity is left
out: the rule mapper never appends. -/
structure Hdr where
  ptr : Option Addr
  off : Nat
  len : Nat
  deriving DecidableEq, Repr

/-- The stored form of a `RuleWithOperations` value of either schema: its
slices are headers and its `Scope` is a pointer. -/
structure RuleCell where
  Operations : Hdr
  APIGroups : Hdr
  APIVersions : Hdr
  Resources : Hdr
  Scope : Option Addr
  deriving DecidableEq, Repr

/-- The objects of the heap: backing arrays of the slice types the rule
mapper handles, and the pointees of `Scope`. -/
inductive Obj where
  | strings (cells : List String)
  | v1Operations (cells : List V1.OperationType)
  | v1Rules (cells : List RuleCell)
  | v1Scope (s : V1.ScopeType)
  | legacyOperations (cells : List V1beta1.OperationType)
  | legacyRules (cells : List RuleCell)
  deriving DecidableEq, Repr

/-- The heap: the object at address `a` is the `a`-th element. -/
abbrev Heap := List Obj

/-- Allocation of a new object, at the first unused address. -/
def alloc (h : Heap) (o : Obj) : Heap × Addr := (h ++ [o], h.length)

/-- The zero value of a stored rule. -/
def zeroRuleCell : RuleCell :=
  { Operations := ⟨none, 0, 0⟩, APIGroups := ⟨none, 0, 0⟩, APIVersions := ⟨none, 0, 0⟩,
    Resources := ⟨none, 0, 0⟩, Scope := none }

/-- Load of `s[i]` for a `[]v1.RuleWithOperations`. -/
def loadV1Rule (h : Heap) (s : Hdr) (i : Nat) : Option RuleCell :=
  if i < s.len then
    match s.ptr with
    | none => none
    | some a =>
      match h[a]? with
      | some (.v1Rules cells) => cells[s.off + i]?
      | _ => none
  else none

/-- Load of `s[i]` for a `[]v1.OperationType`. -/
def loadV1Operation (h : Heap) (s : Hdr) (i : Nat) : Option V1.OperationType :=
  if i < s.len then
    match s.ptr with
    | none => none
    | some a =>
      match h[a]? with
      | some (.v1Operations cells) => cells[s.off + i]?
      | _ => none
  else none

/-- Load of `s[i]` for a `[]v1beta1.RuleWithOperations`. -/
def loadLegacyRule (h : Heap) (s : Hdr) (i : Nat) : Option RuleCell :=
  if i < s.len then
    match s.ptr with
    | none => none
    | some a =>
      match h[a]? with
      | some (.legacyRules cells) => cells[s.off + i]?
      | _ => none
  else none

/-- Store `s[i] = v` for a `[]v1beta1.OperationType`. -/
def storeLegacyOperation (h : Heap) (s : Hdr) (i : Nat) (v : V1beta1.OperationType) :
    Option Heap :=
  if i < s.len then
    match s.ptr with
    | none => none
    | some a =>
      match h[a]? with
      | some (.legacyOperations cells) =>
        if s.off + i < cells.length then
          some (h.set a (.legacyOperations (cells.set (s.off + i) v)))
        else none
      | _ => none
  else none

/-- Store `s[i] = v` for a `[]v1beta1.RuleWithOperations`. -/
def storeLegacyRule (h : Heap) (s : Hdr) (i : Nat) (v : RuleCell) : Option Heap :=
  if i < s.len then
    match s.ptr with
    | none => none
    | some a =>
      match h[a]? with
      | some (.legacyRules cells) =>
        if s.off + i < cells.length then
          some (h.set a (.legacyRules (cells.set (s.off + i) v)))
        else none
      | _ => none
  else none

/-- Store `s[i] = v` for a `[]string`. -/
def storeString (h : Heap) (s : Hdr) (i : Nat) (v : String) : Option Heap :=
  if i < s.len then
    match s.ptr with
    | none => none
    | some a =>
      match h[a]? with
      | some (.strings cells) =>
        if s.off + i < cells.length then
          some (h.set a (.strings (cells.set (s.off + i) v)))
        else none
      | _ => none
  else none

/-- The inner loop of `v1Tov1beta1Rules`, with `n` iterations left and `j`
the current index: load the operation, convert it, store it. -/
def operationsLoop (src dst : Hdr) : Nat → Nat → Heap → Option Heap
  | 0, _, h => some h
  | n + 1, j, h =>
    match loadV1Operation h src j with
    | none => none
    | some v1Operation =>
      match storeLegacyOperation h dst j ⟨v1Operation.val⟩ with
      | none => none
      | some h1 => operationsLoop src dst n (j + 1) h1

/-- The outer loop of `v1Tov1beta1Rules`, with `n` iterations left and `i`
the current index. -/
def rulesLoop (src dst : Hdr) : Nat → Nat → Heap → Option Heap
  | 0, _, h => some h
  | n + 1, i, h =>
    match loadV1Rule h src i with
    | none => none
    | some v1Rule =>
      let (h1, a) := alloc h
        (.legacyOperations (List.replicate v1Rule.Operations.len V1beta1.zeroOperationType))
      let v1beta1Operations : Hdr := ⟨some a, 0, v1Rule.Operations.len⟩
      match operationsLoop v1Rule.Operations v1beta1Operations v1Rule.Operations.len 0 h1 with
      | none => none
      | some h2 =>
        match storeLegacyRule h2 dst i
            { APIGroups := v1Rule.APIGroups
              APIVersions := v1Rule.APIVersions
              Resources := v1Rule.Resources
              Scope := none
              Operations := v1beta1Operations } with
        | none => none
        | some h3 => rulesLoop src dst n (i + 1) h3

/-- The function `v1Tov1beta1Rules` over the heap: returns the new heap
and the header of the returned slice. -/
def v1Tov1beta1Rules (h : Heap) (v1Rules : Hdr) : Option (Heap × Hdr) :=
  let (h1, a) := alloc h (.legacyRules (List.replicate v1Rules.len zeroRuleCell))
  let v1beta1Rules : Hdr := ⟨some a, 0, v1Rules.len⟩
  match rulesLoop v1Rules v1beta1Rules v1Rules.len 0 h1 with
  | none => none
  | some h2 => some (h2, v1beta1Rules)

/-! ### What a header denotes -/

/-- The `len` cells from `off` on, when the array holds that many. -/
def window {α : Type} (cells : List α) (off len : Nat) : Option (List α) :=
  if off + len ≤ cells.length then some ((cells.drop off).take len) else none

/-- All results of `f`, when none is undefined. -/
def traverse {α β : Type} (f : α → Option β) : List α → Option (List β)
  | [] => some []
  | x :: xs =>
    match f x with
    | none => none
    | some y =>
      match traverse f xs with
      | none => none
      | some ys => some (y :: ys)

/-- The array of strings at an address. -/
def getStrings (h : Heap) (a : Addr) : Option (List String) :=
  match h[a]? with
  | some (.strings cells) => some cells
  | _ => none

/-- The array of canonical operations at an address. -/
def getV1Operations (h : Heap) (a : Addr) : Option (List V1.OperationType) :=
  match h[a]? with
  | some (.v1Operations cells) => some cells
  | _ => none

/-- The array of canonical rules at an address. -/
def getV1Rules (h : Heap) (a : Addr) : Option (List RuleCell) :=
  match h[a]? with
  | some (.v1Rules cells) => some cells
  | _ => none

/-- The canonical scope at an address. -/
def getV1Scope (h : Heap) (a : Addr) : Option V1.ScopeType :=
  match h[a]? with
  | some (.v1Scope s) => some s
  | _ => none

/-- The value of a `[]string` header. -/
def viewStrings (h : Heap) (s : Hdr) : Option (Slice String) :=
  match s.ptr with
  | none => if s.len = 0 then some .null else none
  | some a =>
    match getStrings h a with
    | none => none
    | some cells => (window cells s.off s.len).map .of

/-- The value of a `[]v1.OperationType` header. -/
def viewV1Operations (h : Heap) (s : Hdr) : Option (Slice V1.OperationType) :=
  match s.ptr with
  | none => if s.len = 0 then some .null else none
  | some a =>
    match getV1Operations h a with
    | none => none
    | some cells => (window cells s.off s.len).map .of

/-- The value of a `*v1.ScopeType` pointer. -/
def viewV1Scope (h : Heap) : Option Addr → Option (Option V1.ScopeType)
  | none => some none
  | some a => (getV1Scope h a).map some

/-- The value of a stored canonical rule, with everything reachable from it. -/
def viewV1Rule (h : Heap) (c : RuleCell) : Option V1.RuleWithOperations :=
  match viewV1Operations h c.Operations, viewStrings h c.APIGroups,
      viewStrings h c.APIVersions, viewStrings h c.Resources, viewV1Scope h c.Scope with
  | some ops, some groups, some versions, some resources, some scope =>
    some { Operations := ops
           Rule := { APIGroups := groups, APIVersions := versions, Resources := resources,
                     Scope := scope } }
  | _, _, _, _, _ => none

/-- The value of a `[]v1.RuleWithOperations` header, with everything
reachable from it. -/
def viewV1Rules (h : Heap) (s : Hdr) : Option (Slice V1.RuleWithOperations) :=
  match s.ptr with
  | none => if s.len = 0 then some .null else none
  | some a =>
    match getV1Rules h a with
    | none => none
    | some cells =>
      match window cells s.off s.len with
      | none => none
      | some cs => (traverse (viewV1Rule h) cs).map .of

/-- The array of legacy operations at an address. -/
def getLegacyOperations (h : Heap) (a : Addr) : Option (List V1beta1.OperationType) :=
  match h[a]? with
  | some (.legacyOperations cells) => some cells
  | _ => none

/-- The array of legacy rules at an address. -/
def getLegacyRules (h : Heap) (a : Addr) : Option (List RuleCell) :=
  match h[a]? with
  | some (.legacyRules cells) => some cells
  | _ => none

/-- The value of a `[]v1beta1.OperationType` header. -/
def viewLegacyOperations (h : Heap) (s : Hdr) : Option (Slice V1beta1.OperationType) :=
  match s.ptr with
  | none => if s.len = 0 then some .null else none
  | some a =>
    match getLegacyOperations h a with
    | none => none
    | some cells => (window cells s.off s.len).map .of

/-- The value of a stored legacy rule whose `Scope` is nil, the only kind
the rule mapper stores. -/
def viewLegacyRule (h : Heap) (c : RuleCell) : Option V1beta1.RuleWithOperations :=
  match viewLegacyOperations h c.Operations, viewStrings h c.APIGroups,
      viewStrings h c.APIVersions, viewStrings h c.Resources, c.Scope with
  | some ops, some groups, some versions, some resources, none =>
    some { Operations := ops
           Rule := { APIGroups := groups, APIVersions := versions, Resources := resources,
                     Scope := none } }
  | _, _, _, _, _ => none

/-- The value of a `[]v1beta1.RuleWithOperations` header. -/
def viewLegacyRules (h : Heap) (s : Hdr) : Option (Slice V1beta1.RuleWithOperations) :=
  match s.ptr with
  | none => if s.len = 0 then some .null else none
  | some a =>
    match getLegacyRules h a with
    | none => none
    | some cells =>
      match window cells s.off s.len with
      | none => none
      | some cs => (traverse (viewLegacyRule h) cs).map .of

/-- Every array of legacy operations of the first heap is unchanged in the second. -/
def KeepsLegacyOperations (h h2 : Heap) : Prop :=
  ∀ (a : Addr) (cells : List V1beta1.OperationType),
    h[a]? = some (.legacyOperations cells) → h2[a]? = some (.legacyOperations cells)

/-- The legacy rule that one iteration of the rule mapper stores for the
canonical rule `src`, when the operations array it has just allocated is at
address `b`: the header of that array, and the headers of `src` for the
three string slices. -/
def newCell (b : Addr) (src : RuleCell) : RuleCell :=
  { Operations := ⟨some b, 0, src.Operations.len⟩
    APIGroups := src.APIGroups
    APIVersions := src.APIVersions
    Resources := src.Resources
    Scope := none }

/-! ### Writes through the returned slice -/

/-- One assignment through the slice returned by the rule mapper. -/
inductive Mutation where
  | setRule (i : Nat) (v : RuleCell)
  | setOperation (i j : Nat) (v : V1beta1.OperationType)
  | setAPIGroup (i k : Nat) (v : String)
  | setAPIVersion (i k : Nat) (v : String)
  | setResource (i k : Nat) (v : String)
  deriving DecidableEq, Repr

/-- The assignment replaces a rule of the returned sequence or an element
of a returned rule's `Operations`. -/
def Mutation.onNewStorage : Mutation → Bool
  | .setRule _ _ => true
  | .setOperation _ _ _ => true
  | _ => false

/-- The heap after the assignment: `out[i] = v`, `out[i].Operations[j] = v`,
`out[i].APIGroups[k] = v`, `out[i].APIVersions[k] = v` or
`out[i].Resources[k] = v`. -/
def mutate (h : Heap) (out : Hdr) : Mutation → Option Heap
  | .setRule i v => storeLegacyRule h out i v
  | .setOperation i j v =>
    match loadLegacyRule h out i with
    | none => none
    | some c => storeLegacyOperation h c.Operations j v
  | .setAPIGroup i k v =>
    match loadLegacyRule h out i with
    | none => none
    | some c => storeString h c.APIGroups k v
  | .setAPIVersion i k v =>
    match loadLegacyRule h out i with
    | none => none
    | some c => storeString h c.APIVersions k v
  | .setResource i k v =>
    match loadLegacyRule h out i with
    | none => none
    | some c => storeString h c.Resources k v

/-- The part of a heap cell that canonical values can reach: legacy
arrays and unused addresses are left out. -/
def canonicalPart : Option Obj → Option Obj
  | some (.legacyOperations _) => none
  | some (.legacyRules _) => none
  | o => o

/-- Two heaps hold the same canonical objects at the same addresses. -/
def SameCanonical (h h2 : Heap) : Prop :=
  ∀ a : Addr, canonicalPart h[a]? = canonicalPart h2[a]?

/-- A heap holding the rule of Scenario A: the three string arrays, the
operations array and the one-rule array, at addresses 0 to 4. -/
def scenarioHeap : Heap :=
  [ .strings ["apps"], .strings ["v1"], .strings ["deployments"],
    .v1Operations [⟨"CREATE"⟩, ⟨"UPDATE"⟩],
    .v1Rules [{ Operations := ⟨some 3, 0, 2⟩, APIGroups := ⟨some 0, 0, 1⟩,
                APIVersions := ⟨some 1, 0, 1⟩, Resources := ⟨some 2, 0, 1⟩, Scope := none }] ]

/-- The header of the rule slice of Scenario A in `scenarioHeap`. -/
def scenarioRules : Hdr := ⟨some 4, 0, 1⟩

/-- The heap that the rule mapper leaves when run on `scenarioHeap`: the
new rule array at address 5 and the new operations array at address 6. -/
def scenarioConverted : Heap :=
  scenarioHeap ++
    [ .legacyRules [{ Operations := ⟨some 6, 0, 2⟩, APIGroups := ⟨some 0, 0, 1⟩,
                      APIVersions := ⟨some 1, 0, 1⟩, Resources := ⟨some 2, 0, 1⟩,
                      Scope := none }],
      .legacyOperations [⟨"CREATE"⟩, ⟨"UPDATE"⟩] ]

/-- The header that the rule mapper returns when run on `scenarioHeap`. -/
def scenarioOut : Hdr := ⟨some 5, 0, 1⟩

/-- The heap `scenarioConverted` after `out[0].APIGroups[0] = "x"`: the
store lands in the string array at address 0. -/
def scenarioAfterGroupWrite : Heap :=
  [ .strings ["x"], .strings ["v1"], .strings ["deployments"],
    .v1Operations [⟨"CREATE"⟩, ⟨"UPDATE"⟩],
    .v1Rules [{ Operations := ⟨some 3, 0, 2⟩, APIGroups := ⟨some 0, 0, 1⟩,
                APIVersions := ⟨some 1, 0, 1⟩, Resources := ⟨some 2, 0, 1⟩, Scope := none }],
    .legacyRules [{ Operations := ⟨some 6, 0, 2⟩, APIGroups := ⟨some 0, 0, 1⟩,
                    APIVersions := ⟨some 1, 0, 1⟩, Resources := ⟨some 2, 0, 1⟩,
                    Scope := none }],
    .legacyOperations [⟨"CREATE"⟩, ⟨"UPDATE"⟩] ]

/-- The heap `scenarioConverted` after `out[0].Operations[1] = "DELETE"`:
the store lands in the new operations array at address 6. -/
def scenarioAfterOperationWrite : Heap :=
  scenarioHeap ++
    [ .legacyRules [{ Operations := ⟨some 6, 0, 2⟩, APIGroups := ⟨some 0, 0, 1⟩,
                      APIVersions := ⟨some 1, 0, 1⟩, Resources := ⟨some 2, 0, 1⟩,
                      Scope := none }],
      .legacyOperations [⟨"CREATE"⟩, ⟨"DELETE"⟩] ]

end Mem

/-! ## The enum downgrade functions, statement by statement

The functions `v1Tov1beta1FailurePolicy`, `v1Tov1beta1MatchPolicy` and
`v1Tov1beta1SideEffects` above are written by cases on the pointer. Here
they are embedded once more with each statement of the source as a step,
the dereference `*p` being a step that panics on nil, so that their never
faulting is a property to prove. -/

/-- The function `v1Tov1beta1FailurePolicy` with the dereference as a
fallible step: the nil test, then `fp := FailurePolicyType(*p); return &fp`. -/
def v1Tov1beta1FailurePolicy.steps (v1FailurePolicy : Option V1.FailurePolicyType) :
    Except Fault (Option V1beta1.FailurePolicyType) :=
  if v1FailurePolicy.isNone then .ok none
  else
    match deref v1FailurePolicy with
    | .error e => .error e
    | .ok v => .ok (some ⟨v.val⟩)

/-- The function `v1Tov1beta1MatchPolicy` with the dereference as a
fallible step: the nil test, then `mp := MatchPolicyType(*p); return &mp`. -/
def v1Tov1beta1MatchPolicy.steps (v1MatchPolicy : Option V1.MatchPolicyType) :
    Except Fault (Option V1beta1.MatchPolicyType) :=
  if v1MatchPolicy.isNone then .ok none
  else
    match deref v1MatchPolicy with
    | .error e => .error e
    | .ok v => .ok (some ⟨v.val⟩)

/-- The function `v1Tov1beta1SideEffects` with the dereference as a
fallible step: the nil test, then `se := SideEffectClass(*p); return &se`. -/
def v1Tov1beta1SideEffects.steps (v1SideEffects : Option V1.SideEffectClass) :
    Except Fault (Option V1beta1.SideEffectClass) :=
  if v1SideEffects.isNone then .ok none
  else
    match deref v1SideEffects with
    | .error e => .error e
    | .ok v => .ok (some ⟨v.val⟩)

/-- A canonical rule all of whose slices are nil. -/
def nilRule : V1.RuleWithOperations :=
  { Operations := .null
    Rule := { APIGroups := .null, APIVersions := .null, Resources := .null, Scope := none } }

/-- A canonical rule all of whose slices are empty and non-nil. -/
def emptyRule : V1.RuleWithOperations :=
  { Operations := .of []
    Rule := { APIGroups := .of [], APIVersions := .of [], Resources := .of [], Scope := none } }

/-! ## The golden validation harness (`parser_integration_test.go`)

The function `unmarshalBoth` of the integration test, over byte strings as
lists of bytes. The library functions it calls are outside the source tree
and are modelled here: `bytes.Split` after the Go standard library, the
strict YAML deserialisers as parameters. A failed assertion aborts the
test, so it is an error result. -/

namespace Harness

/-- Modelled from the spec: Go `bytes.Index(s, sep)`, which is outside the
source tree. The position of the first occurrence of `sep` in `s`, `none`
for the result `-1`. -/
def index (sep : List Byte) : List Byte → Option Nat
  | [] => if sep.isPrefixOf [] then some 0 else none
  | b :: t => if sep.isPrefixOf (b :: t) then some 0 else (index sep t).map (· + 1)

/-- Modelled from the spec: the loop of Go `bytes.Count(s, sep)` for a
non-empty `sep`, which is outside the source tree: find the first
occurrence, count it, go on behind it. The first argument bounds the number
of iterations. -/
def countLoop (sep : List Byte) : Nat → List Byte → Nat
  | 0, _ => 0
  | fuel + 1, s =>
    match index sep s with
    | none => 0
    | some i => countLoop sep fuel (s.drop (i + sep.length)) + 1

/-- Modelled from the spec: Go `bytes.Count(s, sep)` for a non-empty `sep`:
the number of non-overlapping occurrences of `sep` in `s`, found from left
to right. Each iteration of the loop consumes at least one byte, so
`len(s)` iterations are enough. -/
def count (s sep : List Byte) : Nat := countLoop sep s.length s

/-- Modelled from the spec: the loop of Go `bytes.Split` (`genSplit`) for a
non-empty `sep`, with `k` iterations left: cut at the first occurrence,
go on behind it, and put what remains in the last piece. -/
def splitLoop (sep : List Byte) : Nat → List Byte → List (List Byte)
  | 0, s => [s]
  | k + 1, s =>
    match index sep s with
    | none => [s]
    | some m => s.take m :: splitLoop sep k (s.drop (m + sep.length))

/-- Modelled from the spec: Go `bytes.Split(s, sep)` for a non-empty `sep`,
which is outside the source tree: the pieces of `s` between the
occurrences of `sep`. As in `genSplit`, the number of pieces is
`Count(s, sep) + 1`, capped at `len(s) + 1`, and the loop runs one
iteration less. -/
def split (s sep : List Byte) : List (List Byte) :=
  let n := count s sep + 1
  let n := if n > s.length + 1 then s.length + 1 else n
  splitLoop sep (n - 1) s

/-- The delimiter `"\n---\n"`. -/
def delimiter : List Byte := [10, 45, 45, 45, 10]

/-- The ways in which `unmarshalBoth` ends without a result: a panic of the
slice expression or of an index expression, or a failed assertion. -/
inductive Failure where
  | sliceBoundsOutOfRange
  | indexOutOfRange
  | wrongDocumentCount (found : Nat)
  | notMutating
  | notValidating
  deriving DecidableEq, Repr

/-- The slice expression `xs[1:]`: panics when `xs` is empty. -/
def sliceFrom1 {α : Type} (xs : List α) : Except Failure (List α) :=
  if 1 ≤ xs.length then .ok (xs.drop 1) else .error .sliceBoundsOutOfRange

/-- The index expression `xs[i]`: panics when `i` is not below `len(xs)`. -/
def elemAt {α : Type} (xs : List α) (i : Nat) : Except Failure α :=
  match xs[i]? with
  | some x => .ok x
  | none => .error .indexOutOfRange

/-- The function `unmarshalBoth`: split on the delimiter, drop the first
piece, assert that two documents are left, deserialise the first as the
mutating and the second as the validating configuration. The two strict
deserialisers are parameters; `none` is a deserialisation error. -/
def unmarshalBoth {M V : Type} (unmarshalMutating : List Byte → Option M)
    (unmarshalValidating : List Byte → Option V) (input : List Byte) :
    Except Failure (M × V) :=
  match sliceFrom1 (split input delimiter) with
  | .error e => .error e
  | .ok documents =>
    if documents.length ≠ 2 then .error (.wrongDocumentCount documents.length)
    else
      match elemAt documents 0 with
      | .error e => .error e
      | .ok d0 =>
        match unmarshalMutating d0 with
        | none => .error .notMutating
        | some mutating =>
          match elemAt documents 1 with
          | .error e => .error e
          | .ok d1 =>
            match unmarshalValidating d1 with
            | none => .error .notValidating
            | some validating => .ok (mutating, validating)

/-- A generated file: a leading piece `a`, then the documents `m` and `v`,
each introduced by the delimiter. -/
def sampleFile : List Byte :=
  [97] ++ delimiter ++ [109] ++ delimiter ++ [118]

/-- A file in which the delimiter lines overlap: `"\n---\n---\n"`. -/
def overlappingFile : List Byte := [10, 45, 45, 45, 10, 45, 45, 45, 10]

end Harness

/-! ## The fields the mappers read -/

/-- The fields of a canonical rule that the rule mapper reads. Of
`Operations` only the elements count, not whether the slice is nil. -/
structure MappedRule where
  APIGroups : Slice String
  APIVersions : Slice String
  Resources : Slice String
  Operations : List V1.OperationType
  deriving DecidableEq, Repr

/-- The fields of a canonical webhook entry that the entry mappers read:
the name, the service's name, namespace and path, the CA bundle, the three
optional enums, and the mapped fields of each rule. -/
structure MappedEntry where
  Name : String
  Service : Option (String × String × Option String)
  CABundle : Slice Byte
  FailurePolicy : Option V1.FailurePolicyType
  MatchPolicy : Option V1.MatchPolicyType
  SideEffects : Option V1.SideEffectClass
  Rules : List MappedRule
  deriving DecidableEq, Repr

/-- The mapped fields of a canonical rule. -/
def mappedRule (r : V1.RuleWithOperations) : MappedRule :=
  { APIGroups := r.Rule.APIGroups
    APIVersions := r.Rule.APIVersions
    Resources := r.Rule.Resources
    Operations := r.Operations.elems }

/-- The mapped fields of a canonical client configuration's service. -/
def mappedService (c : V1.WebhookClientConfig) : Option (String × String × Option String) :=
  c.Service.map fun svc => (svc.Name, svc.Namespace, svc.Path)

/-- The mapped fields of a canonical mutating entry. -/
def mappedMutating (w : V1.MutatingWebhook) : MappedEntry :=
  { Name := w.Name
    Service := mappedService w.ClientConfig
    CABundle := w.ClientConfig.CABundle
    FailurePolicy := w.FailurePolicy
    MatchPolicy := w.MatchPolicy
    SideEffects := w.SideEffects
    Rules := w.Rules.elems.map mappedRule }

/-- The mapped fields of a canonical validating entry. -/
def mappedValidating (w : V1.ValidatingWebhook) : MappedEntry :=
  { Name := w.Name
    Service := mappedService w.ClientConfig
    CABundle := w.ClientConfig.CABundle
    FailurePolicy := w.FailurePolicy
    MatchPolicy := w.MatchPolicy
    SideEffects := w.SideEffects
    Rules := w.Rules.elems.map mappedRule }

/-- Every field of a legacy mutating entry that the mapper does not write
has its zero value. -/
def UnmappedZeroM (o : V1beta1.MutatingWebhook) : Prop :=
  o.ClientConfig.URL = none ∧ (∀ svc, o.ClientConfig.Service = some svc → svc.Port = none) ∧
    o.NamespaceSelector = none ∧ o.ObjectSelector = none ∧ o.TimeoutSeconds = none ∧
    o.AdmissionReviewVersions = .null ∧ o.ReinvocationPolicy = none ∧
    ∀ r ∈ o.Rules.elems, r.Rule.Scope = none

/-- Every field of a legacy validating entry that the mapper does not write
has its zero value. -/
def UnmappedZeroV (o : V1beta1.ValidatingWebhook) : Prop :=
  o.ClientConfig.URL = none ∧ (∀ svc, o.ClientConfig.Service = some svc → svc.Port = none) ∧
    o.NamespaceSelector = none ∧ o.ObjectSelector = none ∧ o.TimeoutSeconds = none ∧
    o.AdmissionReviewVersions = .null ∧
    ∀ r ∈ o.Rules.elems, r.Rule.Scope = none

/-- The Scenario A entry with every unmapped field populated, `Rules` and
`Operations` unchanged in content. -/
def scenarioAUnmapped (bundle : Slice Byte) : V1.MutatingWebhook :=
  { Name := "webhook.example.com"
    ClientConfig :=
      { URL := some "https://example.com/mutate"
        Service := some { Name := "svc", Namespace := "ns", Path := some "/mutate",
                          Port := some 8443 }
        CABundle := bundle }
    Rules := .of [{ scenarioARule with
                    Rule := { scenarioARule.Rule with Scope := some ⟨"Namespaced"⟩ } }]
    FailurePolicy := some ⟨"Fail"⟩
    MatchPolicy := some ⟨"Equivalent"⟩
    NamespaceSelector := some { MatchLabels := [("env", "prod")], MatchExpressions := .null }
    ObjectSelector := some { MatchLabels := [], MatchExpressions := .of [] }
    SideEffects := some ⟨"None"⟩
    TimeoutSeconds := some 10
    AdmissionReviewVersions := .of ["v1", "v1beta1"]
    ReinvocationPolicy := some ⟨"IfNeeded"⟩ }

/-! ## Loops as maps -/

section Loops

variable {α β : Type}

theorem Slice.elems_of (xs : List α) : (Slice.of xs).elems = xs := rfl

/-- A loop of indexed stores into a slice whose first `pre.length` slots are
already written fills the remaining slots with the images, in order. -/
theorem rangeLoop_setIdx (f : α → β) :
    ∀ (xs : List α) (pre rest : List β), rest.length = xs.length →
      rangeLoop (fun i x (s : Slice β) => s.setIdx i (f x)) pre.length xs (.of (pre ++ rest))
        = .ok (.of (pre ++ xs.map f)) := by
  intro xs
  induction xs with
  | nil =>
    intro pre rest h
    have hr : rest = [] := List.length_eq_zero.mp h
    simp [rangeLoop, hr]
  | cons x xs ih =>
    intro pre rest h
    cases rest with
    | nil => simp at h
    | cons r rest =>
      have hlen : rest.length = xs.length := by simpa using h
      have hstep : (Slice.of (pre ++ r :: rest)).setIdx pre.length (f x)
          = .ok (.of ((pre ++ [f x]) ++ rest)) := by
        simp [Slice.setIdx, Slice.len, Slice.elems]
      have := ih (pre ++ [f x]) rest hlen
      simp only [List.length_append, List.length_singleton] at this
      simp only [rangeLoop, hstep, this]
      simp

/-- A loop of indexed stores into a freshly made slice is the element-wise map. -/
theorem rangeLoop_setIdx_make (f : α → β) (zero : β) (xs : List α) :
    rangeLoop (fun i x (s : Slice β) => s.setIdx i (f x)) 0 xs (Slice.make zero xs.length)
      = .ok (.of (xs.map f)) := by
  have := rangeLoop_setIdx f xs [] (List.replicate xs.length zero) (by simp)
  simpa [Slice.make] using this

/-- A loop of appends of infallible images appends the element-wise map. -/
theorem rangeLoop_append_ok (g : α → Except Fault β) (f : α → β) :
    ∀ (xs : List α) (k : Nat) (s : Slice β), (∀ x ∈ xs, g x = .ok (f x)) →
      rangeLoop (appendStep g) k xs s
        = .ok (appendAll s (xs.map f)) := by
  intro xs
  induction xs with
  | nil => intro k s _; simp [rangeLoop, appendAll]
  | cons x xs ih =>
    intro k s h
    have hx : g x = .ok (f x) := h x (by simp)
    have hrest : ∀ y ∈ xs, g y = .ok (f y) := fun y hy => h y (by simp [hy])
    simp only [rangeLoop, appendStep, hx]
    have := ih (k + 1) (s.append (f x)) hrest
    simp only [appendStep] at this
    rw [this]
    cases xs with
    | nil => simp [appendAll, Slice.append]
    | cons y ys => simp [appendAll, Slice.append, Slice.elems]

/-- A loop of appends faults exactly with the fault of some element's image. -/
theorem rangeLoop_append_error (g : α → Except Fault β) (e : Fault) :
    ∀ (xs : List α) (k : Nat) (s : Slice β),
      rangeLoop (appendStep g) k xs s = .error e
        → ∃ x ∈ xs, g x = .error e := by
  intro xs
  induction xs with
  | nil => intro k s h; simp [rangeLoop] at h
  | cons x xs ih =>
    intro k s h
    cases hx : g x with
    | error e' =>
      simp only [rangeLoop, appendStep, hx] at h
      refine ⟨x, by simp, ?_⟩
      cases h
      exact hx
    | ok y =>
      simp only [rangeLoop, appendStep, hx] at h
      obtain ⟨z, hz, hgz⟩ := ih (k + 1) (s.append y) h
      exact ⟨z, by simp [hz], hgz⟩

/-- A loop of appends over a list with a faulting image faults. -/
theorem rangeLoop_append_faults (g : α → Except Fault β) :
    ∀ (xs : List α) (k : Nat) (s : Slice β), (∃ x ∈ xs, ∃ e, g x = .error e) →
      ∃ e, rangeLoop (appendStep g) k xs s = .error e := by
  intro xs
  induction xs with
  | nil => intro k s h; simp at h
  | cons x xs ih =>
    intro k s h
    cases hx : g x with
    | error e' => exact ⟨e', by simp [rangeLoop, appendStep, hx]⟩
    | ok y =>
      obtain ⟨z, hz, e, hgz⟩ := h
      have hzx : z ∈ xs := by
        rcases List.mem_cons.mp hz with rfl | hz
        · rw [hx] at hgz; cases hgz
        · exact hz
      obtain ⟨e', he'⟩ := ih (k + 1) (s.append y) ⟨z, hzx, e, hgz⟩
      exact ⟨e', by simp only [rangeLoop, appendStep, hx]; exact he'⟩

theorem appendAll_null_elems (ys : List β) : (appendAll Slice.null ys).elems = ys := by
  cases ys <;> simp [appendAll, Slice.elems]

end Loops

/-! ## The rule mapper as a map -/

theorem operations_eq (ops : Slice V1.OperationType) :
    v1Tov1beta1Rules.operations ops = .ok (.of (ops.elems.map operationImage)) := by
  unfold v1Tov1beta1Rules.operations
  exact rangeLoop_setIdx_make operationImage V1beta1.zeroOperationType ops.elems

theorem rules_eq (R : Slice V1.RuleWithOperations) :
    v1Tov1beta1Rules R = .ok (.of (R.elems.map ruleImage)) := by
  unfold v1Tov1beta1Rules
  have hbody : (fun i (v1Rule : V1.RuleWithOperations)
        (v1beta1Rules : Slice V1beta1.RuleWithOperations) =>
      match v1Tov1beta1Rules.operations v1Rule.Operations with
      | .error e => .error e
      | .ok v1beta1Operations =>
        v1beta1Rules.setIdx i
          { Rule := { APIGroups := v1Rule.Rule.APIGroups
                      APIVersions := v1Rule.Rule.APIVersions
                      Resources := v1Rule.Rule.Resources
                      Scope := none }
            Operations := v1beta1Operations })
      = fun i v1Rule v1beta1Rules => v1beta1Rules.setIdx i (ruleImage v1Rule) := by
    funext i r s
    simp [operations_eq, ruleImage]
  rw [hbody]
  exact rangeLoop_setIdx_make ruleImage V1beta1.zeroRuleWithOperations R.elems

/-! ## The entry mappers as maps -/

theorem clientConfig_of_some (c : V1.WebhookClientConfig) (h : c.Service ≠ none) :
    v1Tov1beta1ClientConfig c = .ok (clientConfigImage c) := by
  cases hs : c.Service with
  | none => exact absurd hs h
  | some svc => simp [v1Tov1beta1ClientConfig, clientConfigImage, deref, hs]

theorem clientConfig_of_none (c : V1.WebhookClientConfig) (h : c.Service = none) :
    v1Tov1beta1ClientConfig c = .error .nilDereference := by
  simp [v1Tov1beta1ClientConfig, deref, h]

theorem clientConfig_error_iff (c : V1.WebhookClientConfig) (e : Fault) :
    v1Tov1beta1ClientConfig c = .error e ↔ c.Service = none ∧ e = .nilDereference := by
  cases hs : c.Service with
  | none =>
    rw [clientConfig_of_none c hs]
    constructor
    · intro h; cases h; exact ⟨rfl, rfl⟩
    · rintro ⟨_, rfl⟩; rfl
  | some svc =>
    rw [clientConfig_of_some c (by simp [hs])]
    simp

theorem mutating_eq_loop (W : Slice V1.MutatingWebhook) :
    v1Tov1beta1MutatingWebhooks W
      = rangeLoop (appendStep mutatingEntry) 0 W.elems .null := by
  unfold v1Tov1beta1MutatingWebhooks
  congr 1
  funext _ w s
  cases hc : v1Tov1beta1ClientConfig w.ClientConfig with
  | error e => simp [appendStep, mutatingEntry, hc]
  | ok cc =>
    have hs : w.ClientConfig.Service ≠ none := by
      intro hn; rw [clientConfig_of_none _ hn] at hc; cases hc
    have hcc : cc = clientConfigImage w.ClientConfig := by
      rw [clientConfig_of_some _ hs] at hc; cases hc; rfl
    simp [appendStep, mutatingEntry, hc, rules_eq, mutatingImage, hcc]

theorem validating_eq_loop (W : Slice V1.ValidatingWebhook) :
    v1Tov1beta1ValidatingWebhooks W
      = rangeLoop (appendStep validatingEntry) 0 W.elems .null := by
  unfold v1Tov1beta1ValidatingWebhooks
  congr 1
  funext _ w s
  cases hc : v1Tov1beta1ClientConfig w.ClientConfig with
  | error e => simp [appendStep, validatingEntry, hc]
  | ok cc =>
    have hs : w.ClientConfig.Service ≠ none := by
      intro hn; rw [clientConfig_of_none _ hn] at hc; cases hc
    have hcc : cc = clientConfigImage w.ClientConfig := by
      rw [clientConfig_of_some _ hs] at hc; cases hc; rfl
    simp [appendStep, validatingEntry, hc, rules_eq, validatingImage, hcc]

theorem mutatingEntry_ok (w : V1.MutatingWebhook) (h : w.ClientConfig.Service ≠ none) :
    mutatingEntry w = .ok (mutatingImage w) := by
  simp [mutatingEntry, clientConfig_of_some _ h]

theorem validatingEntry_ok (w : V1.ValidatingWebhook) (h : w.ClientConfig.Service ≠ none) :
    validatingEntry w = .ok (validatingImage w) := by
  simp [validatingEntry, clientConfig_of_some _ h]

theorem mutatingEntry_error_iff (w : V1.MutatingWebhook) (e : Fault) :
    mutatingEntry w = .error e ↔ w.ClientConfig.Service = none ∧ e = .nilDereference := by
  rw [← clientConfig_error_iff]
  cases hc : v1Tov1beta1ClientConfig w.ClientConfig <;> simp [mutatingEntry, hc]

theorem validatingEntry_error_iff (w : V1.ValidatingWebhook) (e : Fault) :
    validatingEntry w = .error e ↔ w.ClientConfig.Service = none ∧ e = .nilDereference := by
  rw [← clientConfig_error_iff]
  cases hc : v1Tov1beta1ClientConfig w.ClientConfig <;> simp [validatingEntry, hc]

/-- On a list whose entries all have `Service` set, the mutating mapper
returns the appended images. -/
theorem mutating_eq (W : Slice V1.MutatingWebhook) (h : AllServicesSetM W) :
    v1Tov1beta1MutatingWebhooks W = .ok (appendAll .null (W.elems.map mutatingImage)) := by
  rw [mutating_eq_loop]
  exact rangeLoop_append_ok mutatingEntry mutatingImage W.elems 0 .null
    (fun w hw => mutatingEntry_ok w (h w hw))

/-- On a list whose entries all have `Service` set, the validating mapper
returns the appended images. -/
theorem validating_eq (W : Slice V1.ValidatingWebhook) (h : AllServicesSetV W) :
    v1Tov1beta1ValidatingWebhooks W = .ok (appendAll .null (W.elems.map validatingImage)) := by
  rw [validating_eq_loop]
  exact rangeLoop_append_ok validatingEntry validatingImage W.elems 0 .null
    (fun w hw => validatingEntry_ok w (h w hw))

theorem getElem?_appendAll_null_map {α β : Type} (f : α → β) (xs : List α) (i : Nat) :
    (appendAll Slice.null (xs.map f)).elems[i]? = (xs[i]?).map f := by
  rw [appendAll_null_elems, List.getElem?_map]

theorem len_appendAll_null_map {α β : Type} (f : α → β) (xs : List α) :
    (appendAll Slice.null (xs.map f)).len = xs.length := by
  simp [Slice.len, appendAll_null_elems]

theorem scenarioA_converts (bundle : Slice Byte) :
    v1Tov1beta1MutatingWebhooks (.of [scenarioA bundle]) = .ok (.of [scenarioALegacy bundle]) := by
  rw [mutating_eq _ (by intro w hw; simp [Slice.elems] at hw; subst hw; simp [scenarioA])]
  rfl

/-- A fault of the mutating mapper is the fault of the client-configuration
mapper on some entry. -/
theorem mutating_error_source (W : Slice V1.MutatingWebhook) (e : Fault)
    (h : v1Tov1beta1MutatingWebhooks W = .error e) :
    ∃ w ∈ W.elems, v1Tov1beta1ClientConfig w.ClientConfig = .error e := by
  rw [mutating_eq_loop] at h
  obtain ⟨w, hw, hwe⟩ := rangeLoop_append_error mutatingEntry e W.elems 0 .null h
  refine ⟨w, hw, ?_⟩
  obtain ⟨hs, rfl⟩ := (mutatingEntry_error_iff w e).mp hwe
  exact clientConfig_of_none _ hs

/-- A fault of the validating mapper is the fault of the client-configuration
mapper on some entry. -/
theorem validating_error_source (W : Slice V1.ValidatingWebhook) (e : Fault)
    (h : v1Tov1beta1ValidatingWebhooks W = .error e) :
    ∃ w ∈ W.elems, v1Tov1beta1ClientConfig w.ClientConfig = .error e := by
  rw [validating_eq_loop] at h
  obtain ⟨w, hw, hwe⟩ := rangeLoop_append_error validatingEntry e W.elems 0 .null h
  refine ⟨w, hw, ?_⟩
  obtain ⟨hs, rfl⟩ := (validatingEntry_error_iff w e).mp hwe
  exact clientConfig_of_none _ hs

theorem mutating_fault_iff (W : Slice V1.MutatingWebhook) :
    v1Tov1beta1MutatingWebhooks W = .error .nilDereference
      ↔ ∃ w ∈ W.elems, w.ClientConfig.Service = none := by
  constructor
  · intro h
    obtain ⟨w, hw, hwe⟩ := mutating_error_source W _ h
    exact ⟨w, hw, ((clientConfig_error_iff _ _).mp hwe).1⟩
  · rintro ⟨w, hw, hs⟩
    have hf : ∃ x ∈ W.elems, ∃ e, mutatingEntry x = .error e :=
      ⟨w, hw, .nilDereference, (mutatingEntry_error_iff w _).mpr ⟨hs, rfl⟩⟩
    obtain ⟨e, he⟩ := rangeLoop_append_faults mutatingEntry W.elems 0 .null hf
    rw [← mutating_eq_loop] at he
    obtain ⟨w', _, hwe⟩ := mutating_error_source W e he
    obtain ⟨_, rfl⟩ := (clientConfig_error_iff _ _).mp hwe
    exact he

theorem validating_fault_iff (W : Slice V1.ValidatingWebhook) :
    v1Tov1beta1ValidatingWebhooks W = .error .nilDereference
      ↔ ∃ w ∈ W.elems, w.ClientConfig.Service = none := by
  constructor
  · intro h
    obtain ⟨w, hw, hwe⟩ := validating_error_source W _ h
    exact ⟨w, hw, ((clientConfig_error_iff _ _).mp hwe).1⟩
  · rintro ⟨w, hw, hs⟩
    have hf : ∃ x ∈ W.elems, ∃ e, validatingEntry x = .error e :=
      ⟨w, hw, .nilDereference, (validatingEntry_error_iff w _).mpr ⟨hs, rfl⟩⟩
    obtain ⟨e, he⟩ := rangeLoop_append_faults validatingEntry W.elems 0 .null hf
    rw [← validating_eq_loop] at he
    obtain ⟨w', _, hwe⟩ := validating_error_source W e he
    obtain ⟨_, rfl⟩ := (clientConfig_error_iff _ _).mp hwe
    exact he

theorem mutating_error_is_nil (W : Slice V1.MutatingWebhook) (e : Fault)
    (h : v1Tov1beta1MutatingWebhooks W = .error e) : e = .nilDereference := by
  obtain ⟨w, _, hwe⟩ := mutating_error_source W e h
  exact ((clientConfig_error_iff _ _).mp hwe).2

theorem validating_error_is_nil (W : Slice V1.ValidatingWebhook) (e : Fault)
    (h : v1Tov1beta1ValidatingWebhooks W = .error e) : e = .nilDereference := by
  obtain ⟨w, _, hwe⟩ := validating_error_source W e h
  exact ((clientConfig_error_iff _ _).mp hwe).2

theorem mutating_ok_iff (W : Slice V1.MutatingWebhook) :
    (∃ out, v1Tov1beta1MutatingWebhooks W = .ok out) ↔ AllServicesSetM W := by
  constructor
  · rintro ⟨out, hout⟩ w hw hs
    have := (mutating_fault_iff W).mpr ⟨w, hw, hs⟩
    rw [hout] at this; cases this
  · intro h; exact ⟨_, mutating_eq W h⟩

theorem validating_ok_iff (W : Slice V1.ValidatingWebhook) :
    (∃ out, v1Tov1beta1ValidatingWebhooks W = .ok out) ↔ AllServicesSetV W := by
  constructor
  · rintro ⟨out, hout⟩ w hw hs
    have := (validating_fault_iff W).mpr ⟨w, hw, hs⟩
    rw [hout] at this; cases this
  · intro h; exact ⟨_, validating_eq W h⟩

theorem agree_images (m : V1.MutatingWebhook) (v : V1.ValidatingWebhook)
    (h : AgreeCanonical m v) : AgreeLegacy (mutatingImage m) (validatingImage v) := by
  obtain ⟨h1, h2, h3, h4, h5, h6⟩ := h
  simp [AgreeLegacy, mutatingImage, validatingImage, h1, h2, h3, h4, h5, h6]

/-- Pairwise agreement carries an unset `Service` from one list to the other. -/
theorem unset_service_transfers {α β : Type} (xs : List α) (ys : List β)
    (fx : α → V1.WebhookClientConfig) (fy : β → V1.WebhookClientConfig)
    (hlen : xs.length = ys.length)
    (h : ∀ (i : Nat) x y, xs[i]? = some x → ys[i]? = some y → fx x = fy y)
    (hx : ∃ x ∈ xs, (fx x).Service = none) : ∃ y ∈ ys, (fy y).Service = none := by
  obtain ⟨x, hmem, hs⟩ := hx
  obtain ⟨i, hi, rfl⟩ := List.getElem_of_mem hmem
  have hi2 : i < ys.length := hlen ▸ hi
  refine ⟨ys[i], List.getElem_mem hi2, ?_⟩
  rw [← h i xs[i] ys[i] (List.getElem?_eq_getElem hi) (List.getElem?_eq_getElem hi2)]
  exact hs

/-! ## The storage model: what the rule mapper leaves untouched -/

namespace Mem

theorem SameCanonical.refl (h : Heap) : SameCanonical h h := fun _ => rfl

theorem SameCanonical.trans {h1 h2 h3 : Heap} (h12 : SameCanonical h1 h2)
    (h23 : SameCanonical h2 h3) : SameCanonical h1 h3 :=
  fun a => (h12 a).trans (h23 a)

/-- Allocating a legacy array changes no canonical object. -/
theorem sameCanonical_alloc (h : Heap) (o : Obj) (ho : canonicalPart (some o) = none) :
    SameCanonical h (alloc h o).1 := by
  intro a
  simp only [alloc]
  rcases Nat.lt_trichotomy a h.length with hlt | heq | hgt
  · rw [List.getElem?_append_left hlt]
  · subst heq
    rw [List.getElem?_eq_none (Nat.le_refl _), List.getElem?_concat_length, ho]
    rfl
  · rw [List.getElem?_eq_none (Nat.le_of_lt hgt),
      List.getElem?_eq_none (by simp; omega)]

/-- Overwriting a legacy array with a legacy array changes no canonical object. -/
theorem sameCanonical_set (h : Heap) (a : Addr) (o o2 : Obj) (hget : h[a]? = some o)
    (ho : canonicalPart (some o) = none) (ho2 : canonicalPart (some o2) = none) :
    SameCanonical h (h.set a o2) := by
  intro b
  by_cases hab : a = b
  · subst hab
    have hlt : a < h.length := by
      by_contra hge
      rw [List.getElem?_eq_none (Nat.le_of_not_lt hge)] at hget
      cases hget
    rw [hget, ho, List.getElem?_set_self hlt, ho2]
  · rw [List.getElem?_set_ne hab]

theorem storeLegacyOperation_same (h h2 : Heap) (s : Hdr) (i : Nat)
    (v : V1beta1.OperationType) (hst : storeLegacyOperation h s i v = some h2) :
    SameCanonical h h2 := by
  unfold storeLegacyOperation at hst
  split at hst
  · split at hst
    · cases hst
    · rename_i a _
      split at hst
      · rename_i cells hget
        split at hst
        · cases hst
          exact sameCanonical_set h a _ _ hget rfl rfl
        · cases hst
      · cases hst
  · cases hst

theorem storeLegacyRule_same (h h2 : Heap) (s : Hdr) (i : Nat) (v : RuleCell)
    (hst : storeLegacyRule h s i v = some h2) : SameCanonical h h2 := by
  unfold storeLegacyRule at hst
  split at hst
  · split at hst
    · cases hst
    · rename_i a _
      split at hst
      · rename_i cells hget
        split at hst
        · cases hst
          exact sameCanonical_set h a _ _ hget rfl rfl
        · cases hst
      · cases hst
  · cases hst

theorem operationsLoop_same (src dst : Hdr) :
    ∀ (n j : Nat) (h h2 : Heap), operationsLoop src dst n j h = some h2 →
      SameCanonical h h2 := by
  intro n
  induction n with
  | zero =>
    intro j h h2 hrun
    simp only [operationsLoop] at hrun
    cases hrun
    exact SameCanonical.refl h
  | succ n ih =>
    intro j h h2 hrun
    simp only [operationsLoop] at hrun
    split at hrun
    · cases hrun
    · split at hrun
      · cases hrun
      · rename_i h1 hst
        exact (storeLegacyOperation_same _ _ _ _ _ hst).trans (ih _ _ _ hrun)

theorem rulesLoop_same (src dst : Hdr) :
    ∀ (n i : Nat) (h h2 : Heap), rulesLoop src dst n i h = some h2 →
      SameCanonical h h2 := by
  intro n
  induction n with
  | zero =>
    intro i h h2 hrun
    simp only [rulesLoop] at hrun
    cases hrun
    exact SameCanonical.refl h
  | succ n ih =>
    intro i h h2 hrun
    simp only [rulesLoop] at hrun
    split at hrun
    · cases hrun
    · rename_i v1Rule _
      split at hrun
      · cases hrun
      · rename_i hA hops
        split at hrun
        · cases hrun
        · rename_i hB hst
          exact ((sameCanonical_alloc h (.legacyOperations _) rfl).trans
            (operationsLoop_same _ _ _ _ _ _ hops)).trans
            ((storeLegacyRule_same _ _ _ _ _ hst).trans (ih _ _ _ hrun))

/-- The rule mapper changes no canonical object of the heap. -/
theorem v1Tov1beta1Rules_same (h h2 : Heap) (v1Rules out : Hdr)
    (hrun : v1Tov1beta1Rules h v1Rules = some (h2, out)) : SameCanonical h h2 := by
  simp only [v1Tov1beta1Rules] at hrun
  split at hrun
  · cases hrun
  · rename_i hA hloop
    cases hrun
    exact (sameCanonical_alloc h (.legacyRules _) rfl).trans
      (rulesLoop_same _ _ _ _ _ _ hloop)

/-- An assignment to the returned sequence or to a returned rule's
`Operations` changes no canonical object. -/
theorem mutate_same (h h2 : Heap) (out : Hdr) (m : Mutation) (hm : m.onNewStorage = true)
    (hmut : mutate h out m = some h2) : SameCanonical h h2 := by
  cases m with
  | setRule i v => exact storeLegacyRule_same _ _ _ _ _ hmut
  | setOperation i j v =>
    simp only [mutate] at hmut
    split at hmut
    · cases hmut
    · exact storeLegacyOperation_same _ _ _ _ _ hmut
  | setAPIGroup i k v => cases hm
  | setAPIVersion i k v => cases hm
  | setResource i k v => cases hm

theorem getStrings_canonical (h : Heap) (a : Addr) :
    getStrings h a = match canonicalPart h[a]? with
      | some (.strings cells) => some cells
      | _ => none := by
  unfold getStrings
  generalize h[a]? = x
  cases x with
  | none => rfl
  | some o => cases o <;> rfl

theorem getStrings_congr {h h2 : Heap} (hs : SameCanonical h h2) (a : Addr) :
    getStrings h a = getStrings h2 a := by
  rw [getStrings_canonical, getStrings_canonical, hs a]

theorem getV1Operations_canonical (h : Heap) (a : Addr) :
    getV1Operations h a = match canonicalPart h[a]? with
      | some (.v1Operations cells) => some cells
      | _ => none := by
  unfold getV1Operations
  generalize h[a]? = x
  cases x with
  | none => rfl
  | some o => cases o <;> rfl

theorem getV1Operations_congr {h h2 : Heap} (hs : SameCanonical h h2) (a : Addr) :
    getV1Operations h a = getV1Operations h2 a := by
  rw [getV1Operations_canonical, getV1Operations_canonical, hs a]

theorem getV1Rules_canonical (h : Heap) (a : Addr) :
    getV1Rules h a = match canonicalPart h[a]? with
      | some (.v1Rules cells) => some cells
      | _ => none := by
  unfold getV1Rules
  generalize h[a]? = x
  cases x with
  | none => rfl
  | some o => cases o <;> rfl

theorem getV1Rules_congr {h h2 : Heap} (hs : SameCanonical h h2) (a : Addr) :
    getV1Rules h a = getV1Rules h2 a := by
  rw [getV1Rules_canonical, getV1Rules_canonical, hs a]

theorem getV1Scope_canonical (h : Heap) (a : Addr) :
    getV1Scope h a = match canonicalPart h[a]? with
      | some (.v1Scope s) => some s
      | _ => none := by
  unfold getV1Scope
  generalize h[a]? = x
  cases x with
  | none => rfl
  | some o => cases o <;> rfl

theorem getV1Scope_congr {h h2 : Heap} (hs : SameCanonical h h2) (a : Addr) :
    getV1Scope h a = getV1Scope h2 a := by
  rw [getV1Scope_canonical, getV1Scope_canonical, hs a]

theorem viewStrings_congr {h h2 : Heap} (hs : SameCanonical h h2) (s : Hdr) :
    viewStrings h s = viewStrings h2 s := by
  unfold viewStrings
  cases s.ptr with
  | none => rfl
  | some a => simp only [getStrings_congr hs a]

theorem viewV1Operations_congr {h h2 : Heap} (hs : SameCanonical h h2) (s : Hdr) :
    viewV1Operations h s = viewV1Operations h2 s := by
  unfold viewV1Operations
  cases s.ptr with
  | none => rfl
  | some a => simp only [getV1Operations_congr hs a]

theorem viewV1Scope_congr {h h2 : Heap} (hs : SameCanonical h h2) (p : Option Addr) :
    viewV1Scope h p = viewV1Scope h2 p := by
  cases p with
  | none => rfl
  | some a => simp only [viewV1Scope, getV1Scope_congr hs a]

theorem viewV1Rule_congr {h h2 : Heap} (hs : SameCanonical h h2) :
    viewV1Rule h = viewV1Rule h2 := by
  funext c
  simp only [viewV1Rule, viewV1Operations_congr hs, viewStrings_congr hs, viewV1Scope_congr hs]

theorem window_getElem? {α : Type} (cells w : List α) (off len : Nat)
    (hw : window cells off len = some w) :
    w.length = len ∧ ∀ i : Nat, w[i]? = if i < len then cells[off + i]? else none := by
  unfold window at hw
  split at hw
  · cases hw
    refine ⟨by simp; omega, ?_⟩
    intro i
    rw [List.getElem?_take, List.getElem?_drop]
  · cases hw

theorem loadV1Operation_congr {h h2 : Heap} (hs : SameCanonical h h2) (s : Hdr) (i : Nat) :
    loadV1Operation h s i = loadV1Operation h2 s i := by
  have key : ∀ g : Heap, loadV1Operation g s i =
      if i < s.len then
        match s.ptr with
        | none => none
        | some a => (getV1Operations g a).bind fun cells => cells[s.off + i]?
      else none := by
    intro g
    unfold loadV1Operation getV1Operations
    split
    · cases s.ptr with
      | none => rfl
      | some a =>
        simp only
        generalize g[a]? = x
        cases x with
        | none => rfl
        | some o => cases o <;> rfl
    · rfl
  rw [key h, key h2]
  cases s.ptr with
  | none => rfl
  | some a => simp only [getV1Operations_congr hs a]

theorem loadV1Rule_congr {h h2 : Heap} (hs : SameCanonical h h2) (s : Hdr) (i : Nat) :
    loadV1Rule h s i = loadV1Rule h2 s i := by
  have key : ∀ g : Heap, loadV1Rule g s i =
      if i < s.len then
        match s.ptr with
        | none => none
        | some a => (getV1Rules g a).bind fun cells => cells[s.off + i]?
      else none := by
    intro g
    unfold loadV1Rule getV1Rules
    split
    · cases s.ptr with
      | none => rfl
      | some a =>
        simp only
        generalize g[a]? = x
        cases x with
        | none => rfl
        | some o => cases o <;> rfl
    · rfl
  rw [key h, key h2]
  cases s.ptr with
  | none => rfl
  | some a => simp only [getV1Rules_congr hs a]

/-- A readable operations slice has as many elements as its header says,
and loading index `i` gives its `i`-th element. -/
theorem viewV1Operations_load (h : Heap) (s : Hdr) (v : Slice V1.OperationType)
    (hv : viewV1Operations h s = some v) :
    v.elems.length = s.len ∧ ∀ i : Nat, loadV1Operation h s i = v.elems[i]? := by
  unfold viewV1Operations at hv
  unfold loadV1Operation
  cases hp : s.ptr with
  | none =>
    rw [hp] at hv
    simp only at hv
    split at hv
    · rename_i h0
      cases hv
      refine ⟨by simp [Slice.elems, h0], ?_⟩
      intro i
      simp [Slice.elems, h0]
    · cases hv
  | some a =>
    rw [hp] at hv
    simp only at hv
    unfold getV1Operations at hv
    split at hv
    · cases hv
    · rename_i cells hget
      split at hget
      · rename_i cells2 hobj
        cases hget
        cases hw : window cells s.off s.len with
        | none => rw [hw] at hv; cases hv
        | some w =>
          rw [hw] at hv
          cases hv
          obtain ⟨hl, hi⟩ := window_getElem? cells w s.off s.len hw
          refine ⟨hl, ?_⟩
          intro i
          simp only [hobj, Slice.elems, hi i]
      · cases hget

/-- A readable rule slice has as many cells as its header says, loading
index `i` gives its `i`-th cell, and the cells denote its elements. -/
theorem viewV1Rules_load (h : Heap) (s : Hdr) (v : Slice V1.RuleWithOperations)
    (hv : viewV1Rules h s = some v) :
    ∃ cs : List RuleCell, cs.length = s.len ∧ (∀ i : Nat, loadV1Rule h s i = cs[i]?) ∧
      traverse (viewV1Rule h) cs = some v.elems := by
  unfold viewV1Rules at hv
  unfold loadV1Rule
  cases hp : s.ptr with
  | none =>
    rw [hp] at hv
    simp only at hv
    split at hv
    · rename_i h0
      cases hv
      refine ⟨[], by simp [h0], ?_, rfl⟩
      intro i
      simp [h0]
    · cases hv
  | some a =>
    rw [hp] at hv
    simp only at hv
    unfold getV1Rules at hv
    split at hv
    · cases hv
    · rename_i cells hget
      split at hget
      · rename_i cells2 hobj
        cases hget
        cases hw : window cells s.off s.len with
        | none => rw [hw] at hv; cases hv
        | some w =>
          rw [hw] at hv
          simp only at hv
          cases ht : traverse (viewV1Rule h) w with
          | none => rw [ht] at hv; cases hv
          | some rv =>
            rw [ht] at hv
            cases hv
            obtain ⟨hl, hi⟩ := window_getElem? cells w s.off s.len hw
            refine ⟨w, hl, ?_, ht⟩
            intro i
            simp only [hobj, hi i]
      · cases hget

theorem set_of_getElem? {α : Type} (l : List α) (i : Nat) (x : α) (h : l[i]? = some x) :
    l.set i x = l := by
  apply List.ext_getElem?
  intro j
  by_cases hij : i = j
  · subst hij
    have hlt : i < l.length := by
      by_contra hge
      rw [List.getElem?_eq_none (Nat.le_of_not_lt hge)] at h
      cases h
    rw [List.getElem?_set_self hlt, h]
  · rw [List.getElem?_set_ne hij]

theorem lt_length_of_getElem? {α : Type} (l : List α) (i : Nat) (x : α) (h : l[i]? = some x) :
    i < l.length := by
  by_contra hge
  rw [List.getElem?_eq_none (Nat.le_of_not_lt hge)] at h
  cases h

/-- The inner loop, started with the first `j` slots written, overwrites
the array at `a` with the images of the operations, and changes nothing else. -/
theorem operationsLoop_closed (src : Hdr) (a : Addr) (ops : List V1.OperationType)
    (hlen : ops.length = src.len) :
    ∀ (k j : Nat) (h : Heap) (pre rest : List V1beta1.OperationType),
      j + k = src.len → pre.length = j → rest.length = k →
      h[a]? = some (.legacyOperations (pre ++ rest)) →
      (∀ i : Nat, loadV1Operation h src i = ops[i]?) →
      operationsLoop src ⟨some a, 0, src.len⟩ k j h
        = some (h.set a (.legacyOperations (pre ++ (ops.drop j).map operationImage))) := by
  intro k
  induction k with
  | zero =>
    intro j h pre rest hjk hpre hrest hget _
    have hr : rest = [] := List.length_eq_zero.mp hrest
    have hd : ops.drop j = [] := List.drop_eq_nil_of_le (by omega)
    subst hr
    simp only [operationsLoop, hd, List.map_nil]
    rw [set_of_getElem? h a _ hget]
  | succ k ih =>
    intro j h pre rest hjk hpre hrest hget hload
    have hj : j < ops.length := by omega
    cases rest with
    | nil => simp at hrest
    | cons r rest =>
      have hrest2 : rest.length = k := by simpa using hrest
      have hlj : loadV1Operation h src j = some ops[j] := by
        rw [hload j, List.getElem?_eq_getElem hj]
      have hset : (pre ++ r :: rest).set (0 + j) (operationImage ops[j])
          = (pre ++ [operationImage ops[j]]) ++ rest := by
        subst hpre
        simp
      have hstore : storeLegacyOperation h ⟨some a, 0, src.len⟩ j ⟨(ops[j]).val⟩
          = some (h.set a (.legacyOperations ((pre ++ [operationImage ops[j]]) ++ rest))) := by
        unfold storeLegacyOperation
        have h1 : j < src.len := by omega
        have h2 : 0 + j < (pre ++ r :: rest).length := by simp; omega
        simp only [h1, if_true, hget, h2]
        rw [← hset]
        rfl
      have halt : a < h.length := lt_length_of_getElem? h a _ hget
      have hsame : SameCanonical h
          (h.set a (.legacyOperations ((pre ++ [operationImage ops[j]]) ++ rest))) :=
        sameCanonical_set h a _ _ hget rfl rfl
      have hload2 : ∀ i : Nat, loadV1Operation
          (h.set a (.legacyOperations ((pre ++ [operationImage ops[j]]) ++ rest))) src i
          = ops[i]? := fun i => (loadV1Operation_congr hsame src i).symm.trans (hload i)
      have hih := ih (j + 1)
        (h.set a (.legacyOperations ((pre ++ [operationImage ops[j]]) ++ rest)))
        (pre ++ [operationImage ops[j]]) rest (by omega) (by simp [hpre]) hrest2
        (List.getElem?_set_self halt) hload2
      have hdrop : (ops.drop j).map operationImage
          = operationImage ops[j] :: (ops.drop (j + 1)).map operationImage := by
        rw [List.drop_eq_getElem_cons hj]; rfl
      simp only [operationsLoop, hlj, hstore]
      rw [hih, List.set_set, hdrop]
      simp

theorem traverse_length {α β : Type} (f : α → Option β) :
    ∀ (xs : List α) (ys : List β), traverse f xs = some ys → ys.length = xs.length := by
  intro xs
  induction xs with
  | nil => intro ys h; simp only [traverse] at h; cases h; rfl
  | cons x xs ih =>
    intro ys h
    simp only [traverse] at h
    split at h
    · cases h
    · split at h
      · cases h
      · rename_i zs hz
        cases h
        simp [ih zs hz]

theorem traverse_getElem? {α β : Type} (f : α → Option β) :
    ∀ (xs : List α) (ys : List β), traverse f xs = some ys →
      ∀ (i : Nat) (x : α), xs[i]? = some x → ∃ y, ys[i]? = some y ∧ f x = some y := by
  intro xs
  induction xs with
  | nil => intro ys _ i x hx; simp at hx
  | cons x0 xs ih =>
    intro ys h i x hx
    simp only [traverse] at h
    split at h
    · cases h
    · rename_i y0 hy0
      split at h
      · cases h
      · rename_i zs hz
        cases h
        cases i with
        | zero =>
          simp only [List.getElem?_cons_zero, Option.some.injEq] at hx
          subst hx
          exact ⟨y0, by simp, hy0⟩
        | succ i =>
          simp only [List.getElem?_cons_succ] at hx
          obtain ⟨y, hy, hf⟩ := ih zs hz i x hx
          exact ⟨y, by simpa using hy, hf⟩

theorem traverse_append_one {α β : Type} (f : α → Option β) (x : α) (y : β)
    (hxy : f x = some y) :
    ∀ (xs : List α) (ys : List β), traverse f xs = some ys →
      traverse f (xs ++ [x]) = some (ys ++ [y]) := by
  intro xs
  induction xs with
  | nil => intro ys h; simp only [traverse] at h; cases h; simp [traverse, hxy]
  | cons x0 xs ih =>
    intro ys h
    simp only [traverse] at h
    split at h
    · cases h
    · rename_i y0 hy0
      split at h
      · cases h
      · rename_i zs hz
        cases h
        simp [traverse, hy0, ih zs hz]

theorem traverse_mono {α β : Type} (f g : α → Option β)
    (hfg : ∀ x y, f x = some y → g x = some y) :
    ∀ (xs : List α) (ys : List β), traverse f xs = some ys → traverse g xs = some ys := by
  intro xs
  induction xs with
  | nil => intro ys h; simpa [traverse] using h
  | cons x0 xs ih =>
    intro ys h
    simp only [traverse] at h
    split at h
    · cases h
    · rename_i y0 hy0
      split at h
      · cases h
      · rename_i zs hz
        cases h
        simp [traverse, hfg _ _ hy0, ih zs hz]

/-- The parts of a readable canonical rule. -/
theorem viewV1Rule_some (h : Heap) (c : RuleCell) (r : V1.RuleWithOperations)
    (hv : viewV1Rule h c = some r) :
    viewV1Operations h c.Operations = some r.Operations ∧
    viewStrings h c.APIGroups = some r.Rule.APIGroups ∧
    viewStrings h c.APIVersions = some r.Rule.APIVersions ∧
    viewStrings h c.Resources = some r.Rule.Resources := by
  unfold viewV1Rule at hv
  split at hv
  · rename_i h1 h2 h3 h4 h5
    cases hv
    exact ⟨h1, h2, h3, h4⟩
  · cases hv

theorem viewLegacyOperations_mono {h h2 : Heap} (hk : KeepsLegacyOperations h h2) (s : Hdr)
    (v : Slice V1beta1.OperationType) (hv : viewLegacyOperations h s = some v) :
    viewLegacyOperations h2 s = some v := by
  unfold viewLegacyOperations at hv ⊢
  cases hp : s.ptr with
  | none => rw [hp] at hv; exact hv
  | some a =>
    rw [hp] at hv
    simp only at hv ⊢
    have hg : ∀ cells, getLegacyOperations h a = some cells →
        getLegacyOperations h2 a = some cells := by
      intro cells hc
      unfold getLegacyOperations at hc
      split at hc
      · rename_i cells2 hobj
        cases hc
        simp [getLegacyOperations, hk a _ hobj]
      · cases hc
    cases hc : getLegacyOperations h a with
    | none => rw [hc] at hv; cases hv
    | some cells => rw [hc] at hv; rw [hg cells hc]; exact hv

theorem viewLegacyRule_mono {h h2 : Heap} (hs : SameCanonical h h2)
    (hk : KeepsLegacyOperations h h2) (c : RuleCell) (r : V1beta1.RuleWithOperations)
    (hv : viewLegacyRule h c = some r) : viewLegacyRule h2 c = some r := by
  unfold viewLegacyRule at hv ⊢
  rw [← viewStrings_congr hs, ← viewStrings_congr hs, ← viewStrings_congr hs]
  split at hv
  · rename_i ops g v rs h1 h2 h3 h4 h5
    cases hv
    rw [viewLegacyOperations_mono hk _ _ h1, h2, h3, h4, h5]
  · cases hv

/-- One iteration of the outer loop: from a heap that has the canonical
objects of the initial heap and holds the output array at `a0`, the
iteration succeeds, stores a readable image of the rule in slot `i`, and
keeps the rules stored before readable. -/
theorem rulesLoop_step (h0 hcur : Heap) (a0 : Addr) (n i : Nat) (c : RuleCell)
    (r : V1.RuleWithOperations) (done : List RuleCell) (r0 : RuleCell) (rest : List RuleCell)
    (hin : i < n) (hdone : done.length = i)
    (hsame : SameCanonical h0 hcur)
    (hget : hcur[a0]? = some (.legacyRules (done ++ r0 :: rest)))
    (hcr : viewV1Rule h0 c = some r) :
    ∃ (h3 : Heap) (cell : RuleCell),
      (match operationsLoop c.Operations ⟨some hcur.length, 0, c.Operations.len⟩
          c.Operations.len 0
          (hcur ++ [.legacyOperations
            (List.replicate c.Operations.len V1beta1.zeroOperationType)]) with
        | none => none
        | some h2 =>
          storeLegacyRule h2 ⟨some a0, 0, n⟩ i
            { APIGroups := c.APIGroups
              APIVersions := c.APIVersions
              Resources := c.Resources
              Scope := none
              Operations := ⟨some hcur.length, 0, c.Operations.len⟩ }) = some h3 ∧
      SameCanonical h0 h3 ∧ KeepsLegacyOperations hcur h3 ∧
      h3[a0]? = some (.legacyRules ((done ++ [cell]) ++ rest)) ∧
      viewLegacyRule h3 cell = some (ruleImage r) := by
  obtain ⟨hops, hg, hv, hres⟩ := viewV1Rule_some h0 c r hcr
  obtain ⟨holen, hoload⟩ := viewV1Operations_load h0 _ _ hops
  have ha0 : a0 < hcur.length := lt_length_of_getElem? hcur a0 _ hget
  have hne : hcur.length ≠ a0 := Nat.ne_of_gt ha0
  -- the heap after `make`
  have hs1 : SameCanonical hcur
      (hcur ++ [.legacyOperations (List.replicate c.Operations.len V1beta1.zeroOperationType)]) :=
    sameCanonical_alloc hcur _ rfl
  have hget1 : (hcur ++ [Obj.legacyOperations
      (List.replicate c.Operations.len V1beta1.zeroOperationType)])[hcur.length]?
      = some (.legacyOperations
          ([] ++ List.replicate c.Operations.len V1beta1.zeroOperationType)) := by
    rw [List.getElem?_concat_length]; rfl
  have hinner := operationsLoop_closed c.Operations hcur.length r.Operations.elems holen
    c.Operations.len 0 _ [] (List.replicate c.Operations.len V1beta1.zeroOperationType)
    (by omega) rfl (by simp) hget1
    (fun j => ((loadV1Operation_congr (hsame.trans hs1) c.Operations j).symm.trans (hoload j)))
  simp only [List.nil_append, List.drop_zero] at hinner
  rw [hinner]
  simp only
  -- the heap after the inner loop
  have hs2 : SameCanonical
      (hcur ++ [.legacyOperations (List.replicate c.Operations.len V1beta1.zeroOperationType)])
      ((hcur ++ [Obj.legacyOperations
          (List.replicate c.Operations.len V1beta1.zeroOperationType)]).set hcur.length
        (.legacyOperations (r.Operations.elems.map operationImage))) :=
    sameCanonical_set _ _ _ _ hget1 rfl rfl
  have hget2 : ((hcur ++ [Obj.legacyOperations
          (List.replicate c.Operations.len V1beta1.zeroOperationType)]).set hcur.length
        (.legacyOperations (r.Operations.elems.map operationImage)))[a0]?
      = some (.legacyRules (done ++ r0 :: rest)) := by
    rw [List.getElem?_set_ne hne, List.getElem?_append_left ha0, hget]
  have hsetc : ∀ cell : RuleCell, (done ++ r0 :: rest).set (0 + i) cell
      = (done ++ [cell]) ++ rest := by
    intro cell; subst hdone; simp
  have hstore : ∀ cell : RuleCell, storeLegacyRule
      ((hcur ++ [Obj.legacyOperations
          (List.replicate c.Operations.len V1beta1.zeroOperationType)]).set hcur.length
        (.legacyOperations (r.Operations.elems.map operationImage)))
      ⟨some a0, 0, n⟩ i cell
      = some (((hcur ++ [Obj.legacyOperations
          (List.replicate c.Operations.len V1beta1.zeroOperationType)]).set hcur.length
        (.legacyOperations (r.Operations.elems.map operationImage))).set a0
          (.legacyRules ((done ++ [cell]) ++ rest))) := by
    intro cell
    unfold storeLegacyRule
    have hb : 0 + i < (done ++ r0 :: rest).length := by
      rw [List.length_append, List.length_cons]; omega
    simp only [hin, if_true, hget2, hb]
    rw [← hsetc cell]
  have hs3 : ∀ cells : List RuleCell, SameCanonical h0
      (((hcur ++ [Obj.legacyOperations
          (List.replicate c.Operations.len V1beta1.zeroOperationType)]).set hcur.length
        (.legacyOperations (r.Operations.elems.map operationImage))).set a0
          (.legacyRules cells)) := fun cells =>
    ((hsame.trans hs1).trans hs2).trans
      (sameCanonical_set _ a0 _ (.legacyRules cells) hget2 rfl rfl)
  refine ⟨_, { APIGroups := c.APIGroups
               APIVersions := c.APIVersions
               Resources := c.Resources
               Scope := none
               Operations := ⟨some hcur.length, 0, c.Operations.len⟩ }, hstore _, ?_, ?_, ?_, ?_⟩
  · exact hs3 _
  · intro b cells hb
    have hblt : b < hcur.length := lt_length_of_getElem? hcur b _ hb
    have hb0 : a0 ≠ b := by
      intro hab; subst hab; rw [hget] at hb; cases hb
    rw [List.getElem?_set_ne hb0, List.getElem?_set_ne (Nat.ne_of_gt hblt),
      List.getElem?_append_left hblt, hb]
  · rw [List.getElem?_set_self (by simp; exact Nat.lt_succ_of_lt ha0)]
  · have hopsv : ∀ cells : List RuleCell, viewLegacyOperations
        (((hcur ++ [Obj.legacyOperations
          (List.replicate c.Operations.len V1beta1.zeroOperationType)]).set hcur.length
        (.legacyOperations (r.Operations.elems.map operationImage))).set a0
          (.legacyRules cells))
        ⟨some hcur.length, 0, c.Operations.len⟩
        = some (.of (r.Operations.elems.map operationImage)) := by
      intro cells
      unfold viewLegacyOperations getLegacyOperations
      simp only
      rw [List.getElem?_set_ne (Ne.symm hne), List.getElem?_set_self (by simp)]
      simp only [window, List.length_map, holen, Nat.zero_add, Nat.le_refl, if_true,
        List.drop_zero, Option.map_some']
      rw [List.take_of_length_le (by simp [holen])]
    unfold viewLegacyRule
    simp only [hopsv, ← viewStrings_congr (hs3 _), hg, hv, hres]
    rfl

/-- The outer loop, started with the first `i` slots holding readable
images, succeeds and leaves the output array holding the images of all rules. -/
theorem rulesLoop_closed (h0 : Heap) (src : Hdr) (a0 : Addr) (cs : List RuleCell)
    (rv : List V1.RuleWithOperations) (hcs : cs.length = src.len)
    (hload : ∀ i : Nat, loadV1Rule h0 src i = cs[i]?)
    (hrv : traverse (viewV1Rule h0) cs = some rv) :
    ∀ (k i : Nat) (hcur : Heap) (done rest : List RuleCell),
      i + k = src.len → done.length = i → rest.length = k →
      SameCanonical h0 hcur →
      hcur[a0]? = some (.legacyRules (done ++ rest)) →
      traverse (viewLegacyRule hcur) done = some ((rv.take i).map ruleImage) →
      ∃ (hfin : Heap) (doneAll : List RuleCell),
        rulesLoop src ⟨some a0, 0, src.len⟩ k i hcur = some hfin ∧
        hfin[a0]? = some (.legacyRules doneAll) ∧ doneAll.length = src.len ∧
        traverse (viewLegacyRule hfin) doneAll = some (rv.map ruleImage) := by
  have hrvlen : rv.length = cs.length := traverse_length _ cs rv hrv
  intro k
  induction k with
  | zero =>
    intro i hcur done rest hik hdone hrest _ hget htr
    have hr : rest = [] := List.length_eq_zero.mp hrest
    subst hr
    refine ⟨hcur, done, by simp [rulesLoop], by simpa using hget, by omega, ?_⟩
    rw [List.take_of_length_le (by omega)] at htr
    exact htr
  | succ k ih =>
    intro i hcur done rest hik hdone hrest hsame hget htr
    have hi : i < cs.length := by omega
    cases rest with
    | nil => simp at hrest
    | cons r0 rest =>
      have hrest2 : rest.length = k := by simpa using hrest
      obtain ⟨r, hr, hcr⟩ := traverse_getElem? _ cs rv hrv i cs[i] (List.getElem?_eq_getElem hi)
      have hlc : loadV1Rule hcur src i = some cs[i] := by
        rw [← loadV1Rule_congr hsame, hload, List.getElem?_eq_getElem hi]
      obtain ⟨h3, cell, hstep, hsame3, hkeep, hget3, hcell⟩ :=
        rulesLoop_step h0 hcur a0 src.len i cs[i] r done r0 rest (by omega) hdone hsame hget hcr
      have htr3 : traverse (viewLegacyRule h3) (done ++ [cell])
          = some ((rv.take (i + 1)).map ruleImage) := by
        have hmono := traverse_mono (viewLegacyRule hcur) (viewLegacyRule h3)
          (fun x y hxy => viewLegacyRule_mono
            (fun a => (hsame a).symm.trans (hsame3 a)) hkeep x y hxy) done _ htr
        have := traverse_append_one (viewLegacyRule h3) cell (ruleImage r) hcell done _ hmono
        rw [this, List.take_succ, hr]
        simp
      obtain ⟨hfin, doneAll, hrun, hgetf, hlenf, htrf⟩ :=
        ih (i + 1) h3 (done ++ [cell]) rest (by omega) (by simp [hdone]) hrest2 hsame3
          hget3 htr3
      refine ⟨hfin, doneAll, ?_, hgetf, hlenf, htrf⟩
      simp only [rulesLoop, hlc, alloc]
      cases hop : operationsLoop cs[i].Operations ⟨some hcur.length, 0, cs[i].Operations.len⟩
          cs[i].Operations.len 0
          (hcur ++ [.legacyOperations
            (List.replicate cs[i].Operations.len V1beta1.zeroOperationType)]) with
      | none => rw [hop] at hstep; cases hstep
      | some h2 =>
        rw [hop] at hstep
        simp only at hstep
        simp only [hstep, hrun]

/-- The heap-level rule mapper refines the value-level one: on a heap in
which the argument denotes the rule list `rv`, it returns, and the returned
header denotes in the new heap what `Webhook.v1Tov1beta1Rules` returns on `rv`. -/
theorem v1Tov1beta1Rules_refines (h : Heap) (v1Rules : Hdr)
    (rv : Slice V1.RuleWithOperations) (hv : viewV1Rules h v1Rules = some rv) :
    ∃ (h2 : Heap) (out : Hdr) (res : Slice V1beta1.RuleWithOperations),
      v1Tov1beta1Rules h v1Rules = some (h2, out) ∧
      Webhook.v1Tov1beta1Rules rv = .ok res ∧
      viewLegacyRules h2 out = some res := by
  obtain ⟨cs, hcs, hload, htr⟩ := viewV1Rules_load h v1Rules rv hv
  have hs1 : SameCanonical h (h ++ [.legacyRules (List.replicate v1Rules.len zeroRuleCell)]) :=
    sameCanonical_alloc h _ rfl
  obtain ⟨hfin, doneAll, hrun, hgetf, hlenf, htrf⟩ :=
    rulesLoop_closed h v1Rules h.length cs rv.elems hcs hload htr v1Rules.len 0
      (h ++ [.legacyRules (List.replicate v1Rules.len zeroRuleCell)]) []
      (List.replicate v1Rules.len zeroRuleCell) (by omega) rfl (by simp) hs1
      (by rw [List.getElem?_concat_length]; rfl) (by simp [traverse])
  refine ⟨hfin, ⟨some h.length, 0, v1Rules.len⟩, _, ?_, rules_eq rv, ?_⟩
  · simp only [v1Tov1beta1Rules, alloc, hrun]
  · unfold viewLegacyRules getLegacyRules
    simp only [hgetf, window, Nat.zero_add, hlenf, Nat.le_refl, if_true, List.drop_zero]
    rw [List.take_of_length_le (by omega), htrf]
    rfl

/-- Heaps with the same canonical objects give every canonical rule slice
the same value. -/
theorem viewV1Rules_congr {h h2 : Heap} (hs : SameCanonical h h2) (s : Hdr) :
    viewV1Rules h s = viewV1Rules h2 s := by
  unfold viewV1Rules
  cases s.ptr with
  | none => rfl
  | some a => simp only [getV1Rules_congr hs a, viewV1Rule_congr hs]

end Mem

/-! ## The storage model: where the rule mapper writes -/

namespace Mem

theorem set_concat_length {α : Type} (l : List α) (x y : α) :
    (l ++ [x]).set l.length y = l ++ [y] := by
  rw [List.set_append_right _ _ (Nat.le_refl _)]
  simp

/-- A store into a legacy rule slice changes only the array of its header. -/
theorem storeLegacyRule_frame (h h2 : Heap) (s : Hdr) (i : Nat) (v : RuleCell)
    (hst : storeLegacyRule h s i v = some h2) :
    ∃ p : Nat, s.ptr = some p ∧ ∀ a : Nat, a ≠ p → h2[a]? = h[a]? := by
  unfold storeLegacyRule at hst
  split at hst
  · split at hst
    · cases hst
    · rename_i p hp
      split at hst
      · split at hst
        · cases hst
          exact ⟨p, hp, fun a ha => List.getElem?_set_ne (Ne.symm ha)⟩
        · cases hst
      · cases hst
  · cases hst

/-- A store into a legacy operations slice changes only the array of its header. -/
theorem storeLegacyOperation_frame (h h2 : Heap) (s : Hdr) (i : Nat)
    (v : V1beta1.OperationType) (hst : storeLegacyOperation h s i v = some h2) :
    ∃ p : Nat, s.ptr = some p ∧ ∀ a : Nat, a ≠ p → h2[a]? = h[a]? := by
  unfold storeLegacyOperation at hst
  split at hst
  · split at hst
    · cases hst
    · rename_i p hp
      split at hst
      · split at hst
        · cases hst
          exact ⟨p, hp, fun a ha => List.getElem?_set_ne (Ne.symm ha)⟩
        · cases hst
      · cases hst
  · cases hst

/-- A store into a legacy rule slice at an index in range succeeds. -/
theorem storeLegacyRule_ok (h : Heap) (s : Hdr) (i : Nat) (v : RuleCell) (p : Nat)
    (cells : List RuleCell) (hi : i < s.len) (hp : s.ptr = some p)
    (hget : h[p]? = some (.legacyRules cells)) (hb : s.off + i < cells.length) :
    ∃ h2, storeLegacyRule h s i v = some h2 := by
  unfold storeLegacyRule
  simp only [hi, if_true, hp, hget, hb]
  exact ⟨_, rfl⟩

/-- A store into a legacy operations slice at an index in range succeeds. -/
theorem storeLegacyOperation_ok (h : Heap) (s : Hdr) (i : Nat) (v : V1beta1.OperationType)
    (p : Nat) (cells : List V1beta1.OperationType) (hi : i < s.len) (hp : s.ptr = some p)
    (hget : h[p]? = some (.legacyOperations cells)) (hb : s.off + i < cells.length) :
    ∃ h2, storeLegacyOperation h s i v = some h2 := by
  unfold storeLegacyOperation
  simp only [hi, if_true, hp, hget, hb]
  exact ⟨_, rfl⟩

/-- One iteration of the outer loop in closed form: the heap grows by the
new operations array, and slot `i` of the output array receives the new
cell; nothing else changes. -/
theorem rulesLoop_step_eq (h0 hcur : Heap) (a0 : Addr) (n i : Nat) (c : RuleCell)
    (r : V1.RuleWithOperations) (done : List RuleCell) (r0 : RuleCell) (rest : List RuleCell)
    (hin : i < n) (hdone : done.length = i)
    (hsame : SameCanonical h0 hcur)
    (hget : hcur[a0]? = some (.legacyRules (done ++ r0 :: rest)))
    (hcr : viewV1Rule h0 c = some r) :
    (match operationsLoop c.Operations ⟨some hcur.length, 0, c.Operations.len⟩
        c.Operations.len 0
        (hcur ++ [.legacyOperations
          (List.replicate c.Operations.len V1beta1.zeroOperationType)]) with
      | none => none
      | some h2 =>
        storeLegacyRule h2 ⟨some a0, 0, n⟩ i
          { APIGroups := c.APIGroups
            APIVersions := c.APIVersions
            Resources := c.Resources
            Scope := none
            Operations := ⟨some hcur.length, 0, c.Operations.len⟩ })
      = some (hcur.set a0 (.legacyRules ((done ++ [newCell hcur.length c]) ++ rest))
          ++ [.legacyOperations (r.Operations.elems.map operationImage)]) := by
  obtain ⟨hops, _, _, _⟩ := viewV1Rule_some h0 c r hcr
  obtain ⟨holen, hoload⟩ := viewV1Operations_load h0 _ _ hops
  have ha0 : a0 < hcur.length := lt_length_of_getElem? hcur a0 _ hget
  have hne : hcur.length ≠ a0 := Nat.ne_of_gt ha0
  have hs1 : SameCanonical hcur
      (hcur ++ [.legacyOperations (List.replicate c.Operations.len V1beta1.zeroOperationType)]) :=
    sameCanonical_alloc hcur _ rfl
  have hget1 : (hcur ++ [Obj.legacyOperations
      (List.replicate c.Operations.len V1beta1.zeroOperationType)])[hcur.length]?
      = some (.legacyOperations
          ([] ++ List.replicate c.Operations.len V1beta1.zeroOperationType)) := by
    rw [List.getElem?_concat_length]; rfl
  have hinner := operationsLoop_closed c.Operations hcur.length r.Operations.elems holen
    c.Operations.len 0 _ [] (List.replicate c.Operations.len V1beta1.zeroOperationType)
    (by omega) rfl (by simp) hget1
    (fun j => ((loadV1Operation_congr (hsame.trans hs1) c.Operations j).symm.trans (hoload j)))
  simp only [List.nil_append, List.drop_zero] at hinner
  rw [hinner, set_concat_length]
  simp only
  have hget2 : (hcur ++ [Obj.legacyOperations (r.Operations.elems.map operationImage)])[a0]?
      = some (.legacyRules (done ++ r0 :: rest)) := by
    rw [List.getElem?_append_left ha0, hget]
  have hsetc : (done ++ r0 :: rest).set (0 + i) (newCell hcur.length c)
      = (done ++ [newCell hcur.length c]) ++ rest := by
    subst hdone; simp
  have hb : 0 + i < (done ++ r0 :: rest).length := by
    rw [List.length_append, List.length_cons]; omega
  have hstore : storeLegacyRule
      (hcur ++ [Obj.legacyOperations (r.Operations.elems.map operationImage)])
      ⟨some a0, 0, n⟩ i (newCell hcur.length c)
      = some ((hcur ++ [Obj.legacyOperations (r.Operations.elems.map operationImage)]).set a0
          (.legacyRules ((done ++ [newCell hcur.length c]) ++ rest))) := by
    unfold storeLegacyRule
    simp only [hin, if_true, hget2, hb]
    rw [← hsetc]
  rw [List.set_append_left _ _ ha0] at hstore
  exact hstore

/-- The outer loop in terms of addresses. Started on a heap of `a0 + 1 + i`
objects whose first `a0` objects are those of the initial heap, with the
output array at `a0` and the operations arrays of the rules before `i` at
`a0 + 1`, `a0 + 2`, and so on, the loop succeeds and ends on a heap of
`a0 + 1 + len` objects of the same shape. -/
theorem rulesLoop_layout (h0 : Heap) (src : Hdr) (a0 : Nat) (cs : List RuleCell)
    (rv : List V1.RuleWithOperations) (hcs : cs.length = src.len)
    (hload : ∀ i : Nat, loadV1Rule h0 src i = cs[i]?)
    (hrv : traverse (viewV1Rule h0) cs = some rv) :
    ∀ (k i : Nat) (hcur : Heap) (done rest : List RuleCell),
      i + k = src.len → done.length = i → rest.length = k →
      SameCanonical h0 hcur →
      hcur.length = a0 + 1 + i →
      (∀ a : Nat, a < a0 → hcur[a]? = h0[a]?) →
      hcur[a0]? = some (.legacyRules (done ++ rest)) →
      (∀ (t : Nat) (c : RuleCell), done[t]? = some c →
        ∃ s, cs[t]? = some s ∧ c = newCell (a0 + 1 + t) s) →
      (∀ (t : Nat) (s : RuleCell), t < i → cs[t]? = some s →
        ∃ cells, hcur[a0 + 1 + t]? = some (.legacyOperations cells) ∧
          cells.length = s.Operations.len) →
      ∃ (hfin : Heap) (doneAll : List RuleCell),
        rulesLoop src ⟨some a0, 0, src.len⟩ k i hcur = some hfin ∧
        hfin.length = a0 + 1 + src.len ∧
        (∀ a : Nat, a < a0 → hfin[a]? = h0[a]?) ∧
        hfin[a0]? = some (.legacyRules doneAll) ∧ doneAll.length = src.len ∧
        (∀ (t : Nat) (c : RuleCell), doneAll[t]? = some c →
          ∃ s, cs[t]? = some s ∧ c = newCell (a0 + 1 + t) s) ∧
        (∀ (t : Nat) (s : RuleCell), cs[t]? = some s →
          ∃ cells, hfin[a0 + 1 + t]? = some (.legacyOperations cells) ∧
            cells.length = s.Operations.len) := by
  intro k
  induction k with
  | zero =>
    intro i hcur done rest hik hdone hrest _ hlen hpre hget hcells hops
    have hr : rest = [] := List.length_eq_zero.mp hrest
    subst hr
    refine ⟨hcur, done, by simp [rulesLoop], by omega, hpre, by simpa using hget, by omega,
      hcells, ?_⟩
    intro t s hs
    exact hops t s (by have := lt_length_of_getElem? cs t s hs; omega) hs
  | succ k ih =>
    intro i hcur done rest hik hdone hrest hsame hlen hpre hget hcells hops
    have hi : i < cs.length := by omega
    cases rest with
    | nil => simp at hrest
    | cons r0 rest =>
      have hrest2 : rest.length = k := by simpa using hrest
      obtain ⟨r, _, hcr⟩ := traverse_getElem? _ cs rv hrv i cs[i] (List.getElem?_eq_getElem hi)
      have hlc : loadV1Rule hcur src i = some cs[i] := by
        rw [← loadV1Rule_congr hsame, hload, List.getElem?_eq_getElem hi]
      have hstepeq := rulesLoop_step_eq h0 hcur a0 src.len i cs[i] r done r0 rest (by omega)
        hdone hsame hget hcr
      obtain ⟨h3, cell, hstep, hsame3, _, _, _⟩ :=
        rulesLoop_step h0 hcur a0 src.len i cs[i] r done r0 rest (by omega) hdone hsame hget hcr
      have h3eq : h3 = hcur.set a0 (.legacyRules ((done ++ [newCell hcur.length cs[i]]) ++ rest))
          ++ [.legacyOperations (r.Operations.elems.map operationImage)] :=
        Option.some.inj (hstep.symm.trans hstepeq)
      obtain ⟨hopsv, _, _, _⟩ := viewV1Rule_some h0 cs[i] r hcr
      obtain ⟨holen, _⟩ := viewV1Operations_load h0 _ _ hopsv
      have ha0 : a0 < hcur.length := by omega
      have hlen3 : h3.length = a0 + 1 + (i + 1) := by
        rw [h3eq]; simp; omega
      have hold : ∀ a : Nat, a < hcur.length → a ≠ a0 → h3[a]? = hcur[a]? := by
        intro a ha hne
        rw [h3eq, List.getElem?_append_left (by simpa using ha),
          List.getElem?_set_ne (Ne.symm hne)]
      have hget3 : h3[a0]? = some (.legacyRules ((done ++ [newCell hcur.length cs[i]]) ++ rest)) := by
        rw [h3eq, List.getElem?_append_left (by simpa using ha0), List.getElem?_set_self ha0]
      have hnew : h3[a0 + 1 + i]? = some (.legacyOperations
          (r.Operations.elems.map operationImage)) := by
        have hl : (hcur.set a0 (Obj.legacyRules
            ((done ++ [newCell hcur.length cs[i]]) ++ rest))).length = a0 + 1 + i := by
          simpa using hlen
        rw [h3eq, ← hl, List.getElem?_concat_length]
      have hcells3 : ∀ (t : Nat) (c : RuleCell),
          (done ++ [newCell hcur.length cs[i]])[t]? = some c →
          ∃ s, cs[t]? = some s ∧ c = newCell (a0 + 1 + t) s := by
        intro t c ht
        by_cases hti : t < i
        · rw [List.getElem?_append_left (by omega)] at ht
          exact hcells t c ht
        · have hte : t = i := by
            have := lt_length_of_getElem? _ t c ht
            simp at this
            omega
          subst hte
          rw [List.getElem?_append_right (by omega)] at ht
          simp only [hdone, Nat.sub_self, List.getElem?_cons_zero, Option.some.injEq] at ht
          exact ⟨cs[t], List.getElem?_eq_getElem hi, by rw [← ht, hlen]⟩
      have hops3 : ∀ (t : Nat) (s : RuleCell), t < i + 1 → cs[t]? = some s →
          ∃ cells, h3[a0 + 1 + t]? = some (.legacyOperations cells) ∧
            cells.length = s.Operations.len := by
        intro t s ht hs
        by_cases hti : t < i
        · obtain ⟨cells, hc, hl⟩ := hops t s hti hs
          exact ⟨cells, by rw [hold _ (by omega) (by omega), hc], hl⟩
        · have hte : t = i := by omega
          subst hte
          rw [List.getElem?_eq_getElem hi] at hs
          cases hs
          exact ⟨_, hnew, by simp [holen]⟩
      obtain ⟨hfin, doneAll, hrun, hlenf, hpref, hgetf, hdl, hcf, hof⟩ :=
        ih (i + 1) h3 (done ++ [newCell hcur.length cs[i]]) rest (by omega) (by simp [hdone])
          hrest2 hsame3 hlen3
          (fun a ha => (hold a (by omega) (by omega)).trans (hpre a ha)) hget3 hcells3 hops3
      refine ⟨hfin, doneAll, ?_, hlenf, hpref, hgetf, hdl, hcf, hof⟩
      simp only [rulesLoop, hlc, alloc]
      cases hop : operationsLoop cs[i].Operations ⟨some hcur.length, 0, cs[i].Operations.len⟩
          cs[i].Operations.len 0
          (hcur ++ [.legacyOperations
            (List.replicate cs[i].Operations.len V1beta1.zeroOperationType)]) with
      | none => rw [hop] at hstep; cases hstep
      | some h2 =>
        rw [hop] at hstep
        simp only at hstep
        simp only [hstep, hrun]

/-- The rule mapper in terms of addresses. On a heap in which the argument
denotes a rule list, the mapper returns the header of a new array at the
first unused address, leaves every object of the heap as it was, and puts
the operations array of rule `t` at a further new address. -/
theorem v1Tov1beta1Rules_layout (h : Heap) (v1Rules : Hdr)
    (rv : Slice V1.RuleWithOperations) (hv : viewV1Rules h v1Rules = some rv) :
    ∃ (h1 : Heap) (doneAll : List RuleCell),
      v1Tov1beta1Rules h v1Rules = some (h1, ⟨some h.length, 0, v1Rules.len⟩) ∧
      h1.length = h.length + 1 + v1Rules.len ∧
      (∀ a : Nat, a < h.length → h1[a]? = h[a]?) ∧
      h1[h.length]? = some (.legacyRules doneAll) ∧ doneAll.length = v1Rules.len ∧
      (∀ (t : Nat) (s : RuleCell), loadV1Rule h v1Rules t = some s →
        doneAll[t]? = some (newCell (h.length + 1 + t) s) ∧
        ∃ cells, h1[h.length + 1 + t]? = some (.legacyOperations cells) ∧
          cells.length = s.Operations.len) := by
  obtain ⟨cs, hcs, hload, htr⟩ := viewV1Rules_load h v1Rules rv hv
  have hs1 : SameCanonical h (h ++ [.legacyRules (List.replicate v1Rules.len zeroRuleCell)]) :=
    sameCanonical_alloc h _ rfl
  obtain ⟨hfin, doneAll, hrun, hlenf, hpref, hgetf, hdl, hcf, hof⟩ :=
    rulesLoop_layout h v1Rules h.length cs rv.elems hcs hload htr v1Rules.len 0
      (h ++ [.legacyRules (List.replicate v1Rules.len zeroRuleCell)]) []
      (List.replicate v1Rules.len zeroRuleCell) (by omega) rfl (by simp) hs1 (by simp)
      (fun a ha => List.getElem?_append_left ha)
      (by rw [List.getElem?_concat_length]; rfl) (by intro t c ht; simp at ht)
      (by intro t s ht; omega)
  refine ⟨hfin, doneAll, by simp only [v1Tov1beta1Rules, alloc, hrun], hlenf, hpref, hgetf,
    hdl, ?_⟩
  intro t s hs
  rw [hload t] at hs
  have ht : t < doneAll.length := by
    have := lt_length_of_getElem? cs t s hs
    omega
  obtain ⟨s2, hs2, hc⟩ := hcf t doneAll[t] (List.getElem?_eq_getElem ht)
  rw [hs] at hs2
  cases hs2
  exact ⟨by rw [List.getElem?_eq_getElem ht, hc], hof t s hs⟩

end Mem

/-! ## The golden validation harness: splitting -/

namespace Harness

/-- An occurrence found by `index` lies inside the string, and the string
is what precedes it, the separator, and what follows it. -/
theorem index_some (sep : List Byte) :
    ∀ (s : List Byte) (m : Nat), index sep s = some m →
      m + sep.length ≤ s.length ∧ s = s.take m ++ sep ++ s.drop (m + sep.length) := by
  intro s
  induction s with
  | nil =>
    intro m h
    simp only [index] at h
    split at h
    · rename_i hp
      cases h
      have hsep : sep = [] := by
        have := List.isPrefixOf_iff_prefix.mp hp
        exact List.prefix_nil.mp this
      subst hsep
      simp
    · cases h
  | cons b t ih =>
    intro m h
    simp only [index] at h
    split at h
    · rename_i hp
      cases h
      obtain ⟨r, hr⟩ := List.isPrefixOf_iff_prefix.mp hp
      refine ⟨?_, ?_⟩
      · rw [← hr]; simp
      · rw [← hr]; simp
    · cases hi : index sep t with
      | none => rw [hi] at h; cases h
      | some k =>
        rw [hi] at h
        cases h
        obtain ⟨hle, heq⟩ := ih k hi
        refine ⟨by simp; omega, ?_⟩
        have : k + 1 + sep.length = (k + sep.length) + 1 := by omega
        rw [this]
        simp only [List.take_succ_cons, List.drop_succ_cons, List.cons_append]
        rw [← heq]

/-- The counting loop never counts more than its bound. -/
theorem countLoop_le (sep : List Byte) :
    ∀ (fuel : Nat) (s : List Byte), countLoop sep fuel s ≤ fuel := by
  intro fuel
  induction fuel with
  | zero => intro s; simp [countLoop]
  | succ f ih =>
    intro s
    simp only [countLoop]
    cases hi : index sep s with
    | none => simp
    | some i =>
      have := ih (s.drop (i + sep.length))
      simp only
      omega

/-- For a non-empty separator, any bound of at least `len(s)` iterations
gives the counting loop the same result. -/
theorem countLoop_fuel (sep : List Byte) (hsep : sep ≠ []) :
    ∀ (f : Nat) (s : List Byte), s.length ≤ f →
      ∀ g : Nat, f ≤ g → countLoop sep g s = countLoop sep f s := by
  have hpos : 0 < sep.length := List.length_pos.mpr hsep
  intro f
  induction f with
  | zero =>
    intro s hs g _
    have hnil : s = [] := List.length_eq_zero.mp (Nat.le_zero.mp hs)
    subst hnil
    have hidx : index sep [] = none := by
      simp only [index]
      split
      · rename_i hp
        exact absurd (List.prefix_nil.mp (List.isPrefixOf_iff_prefix.mp hp)) hsep
      · rfl
    cases g with
    | zero => rfl
    | succ g => simp [countLoop, hidx]
  | succ f ih =>
    intro s hs g hg
    cases g with
    | zero => omega
    | succ g =>
      simp only [countLoop]
      cases hi : index sep s with
      | none => rfl
      | some i =>
        simp only
        have hb := (index_some sep s i hi).1
        rw [ih (s.drop (i + sep.length)) (by simp; omega) g (by omega)]

/-- The splitting loop, given the count as its bound, returns one piece
more than the count. -/
theorem splitLoop_length (sep : List Byte) :
    ∀ (fuel : Nat) (s : List Byte),
      (splitLoop sep (countLoop sep fuel s) s).length = countLoop sep fuel s + 1 := by
  intro fuel
  induction fuel with
  | zero => intro s; simp [countLoop, splitLoop]
  | succ f ih =>
    intro s
    simp only [countLoop]
    cases hi : index sep s with
    | none => simp [splitLoop]
    | some i =>
      simp only [splitLoop, hi, List.length_cons]
      rw [ih]

/-- The cap on the number of pieces in `split` never applies. -/
theorem split_eq (s sep : List Byte) : split s sep = splitLoop sep (count s sep) s := by
  have hle : count s sep ≤ s.length := countLoop_le sep s.length s
  simp only [split]
  rw [if_neg (by omega)]
  rfl

/-- The result of `split` has one piece more than the separator has occurrences. -/
theorem split_length (s sep : List Byte) : (split s sep).length = count s sep + 1 := by
  rw [split_eq]
  exact splitLoop_length sep s.length s

/-- Joining the pieces of the splitting loop with the separator gives the string back. -/
theorem splitLoop_join (sep : List Byte) :
    ∀ (k : Nat) (s : List Byte), ∃ (p : List Byte) (ps : List (List Byte)),
      splitLoop sep k s = p :: ps ∧
      p ++ (ps.map (fun q => sep ++ q)).flatten = s := by
  intro k
  induction k with
  | zero => intro s; exact ⟨s, [], rfl, by simp⟩
  | succ k ih =>
    intro s
    simp only [splitLoop]
    cases hi : index sep s with
    | none => exact ⟨s, [], rfl, by simp⟩
    | some m =>
      obtain ⟨p, ps, hp, hj⟩ := ih (s.drop (m + sep.length))
      refine ⟨s.take m, p :: ps, by simp only [hp], ?_⟩
      have := (index_some sep s m hi).2
      simp only [List.map_cons, List.flatten_cons]
      rw [List.append_assoc sep, hj, ← List.append_assoc]
      exact this.symm

end Harness

namespace Harness

/-- The slice expression `[1:]` on the result of `split` never panics, and
keeps as many documents as the delimiter has occurrences. -/
theorem sliceFrom1_split (input : List Byte) :
    sliceFrom1 (split input delimiter) = .ok ((split input delimiter).drop 1) ∧
    ((split input delimiter).drop 1).length = count input delimiter := by
  have hl := split_length input delimiter
  refine ⟨?_, by simp [hl]⟩
  simp [sliceFrom1, hl]

/-- With a number of documents other than two, `unmarshalBoth` fails the
document-count assertion. -/
theorem unmarshalBoth_wrong_count {M V : Type} (um : List Byte → Option M)
    (uv : List Byte → Option V) (input : List Byte) (h : count input delimiter ≠ 2) :
    unmarshalBoth um uv input = .error (.wrongDocumentCount (count input delimiter)) := by
  obtain ⟨hs, hl⟩ := sliceFrom1_split input
  simp only [unmarshalBoth, hs, hl]
  rw [if_pos h]

/-- With two documents, `unmarshalBoth` hands the first to the mutating
deserialiser and the second to the validating one. -/
theorem unmarshalBoth_two {M V : Type} (um : List Byte → Option M)
    (uv : List Byte → Option V) (input : List Byte) (h : count input delimiter = 2) :
    ∃ d0 d1, (split input delimiter).drop 1 = [d0, d1] ∧
      (um d0 = none → unmarshalBoth um uv input = .error .notMutating) ∧
      (∀ m, um d0 = some m → uv d1 = none →
        unmarshalBoth um uv input = .error .notValidating) ∧
      (∀ m v, um d0 = some m → uv d1 = some v → unmarshalBoth um uv input = .ok (m, v)) := by
  obtain ⟨hs, hl⟩ := sliceFrom1_split input
  rw [h] at hl
  obtain ⟨d0, d1, hd⟩ : ∃ d0 d1, (split input delimiter).drop 1 = [d0, d1] := by
    match hdocs : (split input delimiter).drop 1, hl with
    | [d0, d1], _ => exact ⟨d0, d1, rfl⟩
  refine ⟨d0, d1, hd, ?_, ?_, ?_⟩
  · intro h0
    simp [unmarshalBoth, hs, hd, elemAt, h0]
  · intro m h0 h1
    simp [unmarshalBoth, hs, hd, elemAt, h0, h1]
  · intro m v h0 h1
    simp [unmarshalBoth, hs, hd, elemAt, h0, h1]

end Harness

/-! ## The images depend on the mapped fields only -/

/-- If `g` is determined by `f`, lists with the same `f`-images have the
same `g`-images. -/
theorem map_eq_of_factor {α β γ : Type} (f : α → β) (g : α → γ)
    (hfg : ∀ a b, f a = f b → g a = g b) :
    ∀ (xs ys : List α), xs.map f = ys.map f → xs.map g = ys.map g := by
  intro xs
  induction xs with
  | nil =>
    intro ys h
    cases ys with
    | nil => rfl
    | cons y ys => simp at h
  | cons x xs ih =>
    intro ys h
    cases ys with
    | nil => simp at h
    | cons y ys =>
      simp only [List.map_cons, List.cons.injEq] at h ⊢
      exact ⟨hfg x y h.1, ih ys h.2⟩

theorem ruleImage_of_mapped (a b : V1.RuleWithOperations) (h : mappedRule a = mappedRule b) :
    ruleImage a = ruleImage b := by
  simp only [mappedRule, MappedRule.mk.injEq] at h
  obtain ⟨h1, h2, h3, h4⟩ := h
  simp [ruleImage, h1, h2, h3, h4]

theorem clientConfigImage_of_mapped (a b : V1.WebhookClientConfig)
    (hs : mappedService a = mappedService b) (hb : a.CABundle = b.CABundle) :
    clientConfigImage a = clientConfigImage b := by
  unfold mappedService at hs
  unfold clientConfigImage
  rw [hb]
  cases ha : a.Service with
  | none =>
    cases hb2 : b.Service with
    | none => rfl
    | some sb => rw [ha, hb2] at hs; simp at hs
  | some sa =>
    cases hb2 : b.Service with
    | none => rw [ha, hb2] at hs; simp at hs
    | some sb =>
      rw [ha, hb2] at hs
      simp only [Option.map_some', Option.some.injEq, Prod.mk.injEq] at hs
      obtain ⟨h1, h2, h3⟩ := hs
      simp [h1, h2, h3]

theorem mutatingImage_of_mapped (a b : V1.MutatingWebhook)
    (h : mappedMutating a = mappedMutating b) : mutatingImage a = mutatingImage b := by
  simp only [mappedMutating, MappedEntry.mk.injEq] at h
  obtain ⟨h1, h2, h3, h4, h5, h6, h7⟩ := h
  simp only [mutatingImage, h1, h4, h5, h6, clientConfigImage_of_mapped _ _ h2 h3,
    map_eq_of_factor mappedRule ruleImage ruleImage_of_mapped _ _ h7]

theorem validatingImage_of_mapped (a b : V1.ValidatingWebhook)
    (h : mappedValidating a = mappedValidating b) : validatingImage a = validatingImage b := by
  simp only [mappedValidating, MappedEntry.mk.injEq] at h
  obtain ⟨h1, h2, h3, h4, h5, h6, h7⟩ := h
  simp only [validatingImage, h1, h4, h5, h6, clientConfigImage_of_mapped _ _ h2 h3,
    map_eq_of_factor mappedRule ruleImage ruleImage_of_mapped _ _ h7]

theorem mutatingImage_unmapped (w : V1.MutatingWebhook) : UnmappedZeroM (mutatingImage w) := by
  refine ⟨rfl, ?_, rfl, rfl, rfl, rfl, rfl, ?_⟩
  · intro svc hsvc
    simp only [mutatingImage, clientConfigImage] at hsvc
    cases hs : w.ClientConfig.Service with
    | none => rw [hs] at hsvc; cases hsvc
    | some s => rw [hs] at hsvc; cases hsvc; rfl
  · intro r hr
    simp only [mutatingImage, Slice.elems, List.mem_map] at hr
    obtain ⟨x, _, rfl⟩ := hr
    rfl

theorem validatingImage_unmapped (w : V1.ValidatingWebhook) :
    UnmappedZeroV (validatingImage w) := by
  refine ⟨rfl, ?_, rfl, rfl, rfl, rfl, ?_⟩
  · intro svc hsvc
    simp only [validatingImage, clientConfigImage] at hsvc
    cases hs : w.ClientConfig.Service with
    | none => rw [hs] at hsvc; cases hsvc
    | some s => rw [hs] at hsvc; cases hsvc; rfl
  · intro r hr
    simp only [validatingImage, Slice.elems, List.mem_map] at hr
    obtain ⟨x, _, rfl⟩ := hr
    rfl

/-! ## The claims -/

/-- C1: for a list of canonical entries whose `Service` is always set, the
mutating mapper and the validating mapper each return a list of the same
length as the input, and the entry at every index carries the name of the
input entry at that index. -/
theorem webhooks_length_and_names (M : Slice V1.MutatingWebhook)
    (V : Slice V1.ValidatingWebhook) (hM : AllServicesSetM M) (hV : AllServicesSetV V) :
    (∃ out, v1Tov1beta1MutatingWebhooks M = .ok out ∧ out.len = M.len ∧
      ∀ i, i < M.len →
        ∃ o w, out.elems[i]? = some o ∧ M.elems[i]? = some w ∧ o.Name = w.Name) ∧
    (∃ out, v1Tov1beta1ValidatingWebhooks V = .ok out ∧ out.len = V.len ∧
      ∀ i, i < V.len →
        ∃ o w, out.elems[i]? = some o ∧ V.elems[i]? = some w ∧ o.Name = w.Name) := by
  constructor
  · refine ⟨_, mutating_eq M hM, len_appendAll_null_map _ _, ?_⟩
    intro i hi
    have hw : M.elems[i]? = some (M.elems[i]) := List.getElem?_eq_getElem hi
    exact ⟨mutatingImage M.elems[i], M.elems[i],
      by rw [getElem?_appendAll_null_map, hw]; rfl, hw, rfl⟩
  · refine ⟨_, validating_eq V hV, len_appendAll_null_map _ _, ?_⟩
    intro i hi
    have hw : V.elems[i]? = some (V.elems[i]) := List.getElem?_eq_getElem hi
    exact ⟨validatingImage V.elems[i], V.elems[i],
      by rw [getElem?_appendAll_null_map, hw]; rfl, hw, rfl⟩

/-- Witness for C1 on a two-entry mutating list and a one-entry validating list. -/
theorem webhooks_length_and_names_witness :
    AllServicesSetM (.of [scenarioA .null, scenarioA (.of [7])]) ∧
    AllServicesSetV (.of [sampleValidating]) ∧
    ((∃ out, v1Tov1beta1MutatingWebhooks (.of [scenarioA .null, scenarioA (.of [7])]) = .ok out ∧
        out.len = 2 ∧
        ∀ i, i < 2 →
          ∃ o w, out.elems[i]? = some o ∧
            [scenarioA .null, scenarioA (.of [7])][i]? = some w ∧ o.Name = w.Name) ∧
      (∃ out, v1Tov1beta1ValidatingWebhooks (.of [sampleValidating]) = .ok out ∧
        out.len = 1 ∧
        ∀ i, i < 1 →
          ∃ o w, out.elems[i]? = some o ∧ [sampleValidating][i]? = some w ∧ o.Name = w.Name)) :=
  ⟨by decide, by decide,
    webhooks_length_and_names (.of [scenarioA .null, scenarioA (.of [7])])
      (.of [sampleValidating]) (by decide) (by decide)⟩

/-- C2: for a list of canonical entries whose `Service` is always set, the
entry at every index of the output of the mutating mapper (and of the
validating mapper) has each field equal to the result of the matching
sub-mapper on the input entry at that index: client configuration, failure
policy, match policy, side effects and rules. The Scenario A entry maps to
the legacy entry with the same field values and enum strings. -/
theorem webhooks_fieldwise (M : Slice V1.MutatingWebhook) (V : Slice V1.ValidatingWebhook)
    (hM : AllServicesSetM M) (hV : AllServicesSetV V) :
    (∃ out, v1Tov1beta1MutatingWebhooks M = .ok out ∧
      ∀ i, i < M.len →
        ∃ o w, out.elems[i]? = some o ∧ M.elems[i]? = some w ∧
          v1Tov1beta1ClientConfig w.ClientConfig = .ok o.ClientConfig ∧
          o.FailurePolicy = v1Tov1beta1FailurePolicy w.FailurePolicy ∧
          o.MatchPolicy = v1Tov1beta1MatchPolicy w.MatchPolicy ∧
          o.SideEffects = v1Tov1beta1SideEffects w.SideEffects ∧
          v1Tov1beta1Rules w.Rules = .ok o.Rules) ∧
    (∃ out, v1Tov1beta1ValidatingWebhooks V = .ok out ∧
      ∀ i, i < V.len →
        ∃ o w, out.elems[i]? = some o ∧ V.elems[i]? = some w ∧
          v1Tov1beta1ClientConfig w.ClientConfig = .ok o.ClientConfig ∧
          o.FailurePolicy = v1Tov1beta1FailurePolicy w.FailurePolicy ∧
          o.MatchPolicy = v1Tov1beta1MatchPolicy w.MatchPolicy ∧
          o.SideEffects = v1Tov1beta1SideEffects w.SideEffects ∧
          v1Tov1beta1Rules w.Rules = .ok o.Rules) ∧
    (∀ bundle, v1Tov1beta1MutatingWebhooks (.of [scenarioA bundle])
      = .ok (.of [scenarioALegacy bundle])) := by
  refine ⟨?_, ?_, scenarioA_converts⟩
  · refine ⟨_, mutating_eq M hM, ?_⟩
    intro i hi
    have hw : M.elems[i]? = some (M.elems[i]) := List.getElem?_eq_getElem hi
    have hmem : M.elems[i] ∈ M.elems := List.getElem_mem hi
    refine ⟨mutatingImage M.elems[i], M.elems[i],
      by rw [getElem?_appendAll_null_map, hw]; rfl, hw, ?_, rfl, rfl, rfl, ?_⟩
    · exact clientConfig_of_some _ (hM _ hmem)
    · exact rules_eq _
  · refine ⟨_, validating_eq V hV, ?_⟩
    intro i hi
    have hw : V.elems[i]? = some (V.elems[i]) := List.getElem?_eq_getElem hi
    have hmem : V.elems[i] ∈ V.elems := List.getElem_mem hi
    refine ⟨validatingImage V.elems[i], V.elems[i],
      by rw [getElem?_appendAll_null_map, hw]; rfl, hw, ?_, rfl, rfl, rfl, ?_⟩
    · exact clientConfig_of_some _ (hV _ hmem)
    · exact rules_eq _

/-- Witness for C2 on the Scenario A entry and a validating entry. -/
theorem webhooks_fieldwise_witness :
    AllServicesSetM (.of [scenarioA (.of [48, 130])]) ∧
    AllServicesSetV (.of [sampleValidating]) ∧
    (∃ out, v1Tov1beta1MutatingWebhooks (.of [scenarioA (.of [48, 130])]) = .ok out ∧
      ∀ i, i < 1 →
        ∃ o w, out.elems[i]? = some o ∧ [scenarioA (.of [48, 130])][i]? = some w ∧
          v1Tov1beta1ClientConfig w.ClientConfig = .ok o.ClientConfig ∧
          o.FailurePolicy = v1Tov1beta1FailurePolicy w.FailurePolicy ∧
          o.MatchPolicy = v1Tov1beta1MatchPolicy w.MatchPolicy ∧
          o.SideEffects = v1Tov1beta1SideEffects w.SideEffects ∧
          v1Tov1beta1Rules w.Rules = .ok o.Rules) ∧
    (∃ out, v1Tov1beta1ValidatingWebhooks (.of [sampleValidating]) = .ok out ∧
      ∀ i, i < 1 →
        ∃ o w, out.elems[i]? = some o ∧ [sampleValidating][i]? = some w ∧
          v1Tov1beta1ClientConfig w.ClientConfig = .ok o.ClientConfig ∧
          o.FailurePolicy = v1Tov1beta1FailurePolicy w.FailurePolicy ∧
          o.MatchPolicy = v1Tov1beta1MatchPolicy w.MatchPolicy ∧
          o.SideEffects = v1Tov1beta1SideEffects w.SideEffects ∧
          v1Tov1beta1Rules w.Rules = .ok o.Rules) :=
  have h := webhooks_fieldwise (.of [scenarioA (.of [48, 130])]) (.of [sampleValidating])
    (by decide) (by decide)
  ⟨by decide, by decide, h.1, h.2.1⟩

/-- C3: each enum downgrade function returns nil exactly when its argument
is nil, and otherwise returns a value with the same underlying string. -/
theorem enums_preserve_absence_and_string :
    (∀ p, (v1Tov1beta1FailurePolicy p = none ↔ p = none) ∧
      (v1Tov1beta1FailurePolicy p).map (fun q => q.val) = p.map (fun q => q.val)) ∧
    (∀ p, (v1Tov1beta1MatchPolicy p = none ↔ p = none) ∧
      (v1Tov1beta1MatchPolicy p).map (fun q => q.val) = p.map (fun q => q.val)) ∧
    (∀ p, (v1Tov1beta1SideEffects p = none ↔ p = none) ∧
      (v1Tov1beta1SideEffects p).map (fun q => q.val) = p.map (fun q => q.val)) ∧
    (∀ s, v1Tov1beta1FailurePolicy (some ⟨s⟩) = some ⟨s⟩) ∧
    (∀ s, v1Tov1beta1MatchPolicy (some ⟨s⟩) = some ⟨s⟩) ∧
    (∀ s, v1Tov1beta1SideEffects (some ⟨s⟩) = some ⟨s⟩) := by
  refine ⟨?_, ?_, ?_, fun _ => rfl, fun _ => rfl, fun _ => rfl⟩
  · intro p; cases p <;> simp [v1Tov1beta1FailurePolicy]
  · intro p; cases p <;> simp [v1Tov1beta1MatchPolicy]
  · intro p; cases p <;> simp [v1Tov1beta1SideEffects]

/-- C4: the rule mapper returns, for every list of canonical rules, a list
of the same length whose rule at every index has the same `APIGroups`,
`APIVersions` and `Resources` as the input rule at that index: the same
strings in the same order, nothing removed. -/
theorem rules_length_and_string_fields (R : Slice V1.RuleWithOperations) :
    ∃ out, v1Tov1beta1Rules R = .ok out ∧ out.len = R.len ∧
      ∀ i, i < R.len →
        ∃ o r, out.elems[i]? = some o ∧ R.elems[i]? = some r ∧
          o.Rule.APIGroups = r.Rule.APIGroups ∧
          o.Rule.APIVersions = r.Rule.APIVersions ∧
          o.Rule.Resources = r.Rule.Resources ∧
          o.Rule.APIGroups.elems = r.Rule.APIGroups.elems ∧
          o.Rule.APIVersions.elems = r.Rule.APIVersions.elems ∧
          o.Rule.Resources.elems = r.Rule.Resources.elems := by
  refine ⟨_, rules_eq R, by simp [Slice.len, Slice.elems], ?_⟩
  intro i hi
  have hr : R.elems[i]? = some (R.elems[i]) := List.getElem?_eq_getElem hi
  exact ⟨ruleImage R.elems[i], R.elems[i],
    by rw [Slice.elems_of, List.getElem?_map, hr]; rfl, hr, rfl, rfl, rfl, rfl, rfl, rfl⟩

/-- C5: in the output of the rule mapper the `Operations` of the rule at
every index has the length of the input rule's `Operations`, and its
element at every position is the legacy operation with the underlying
string of the input operation at that position. -/
theorem rules_operations_pointwise (R : Slice V1.RuleWithOperations) :
    ∃ out, v1Tov1beta1Rules R = .ok out ∧
      ∀ i, i < R.len →
        ∃ o r, out.elems[i]? = some o ∧ R.elems[i]? = some r ∧
          o.Operations.len = r.Operations.len ∧
          ∀ j, j < r.Operations.len →
            ∃ b a, o.Operations.elems[j]? = some b ∧ r.Operations.elems[j]? = some a ∧
              b.val = a.val := by
  refine ⟨_, rules_eq R, ?_⟩
  intro i hi
  have hr : R.elems[i]? = some (R.elems[i]) := List.getElem?_eq_getElem hi
  refine ⟨ruleImage R.elems[i], R.elems[i],
    by rw [Slice.elems_of, List.getElem?_map, hr]; rfl, hr, ?_, ?_⟩
  · simp [ruleImage, Slice.len, Slice.elems]
  · intro j hj
    have ha : (R.elems[i]).Operations.elems[j]? = some ((R.elems[i]).Operations.elems[j]) :=
      List.getElem?_eq_getElem hj
    exact ⟨operationImage ((R.elems[i]).Operations.elems[j]), (R.elems[i]).Operations.elems[j],
      by simp only [ruleImage, Slice.elems_of, List.getElem?_map, ha]; rfl, ha, rfl⟩

/-- C6: for a canonical client configuration whose `Service` is set, the
client-configuration mapper returns a legacy configuration whose `Service`
is set with the same `Name`, `Namespace` and `Path`, and whose `CABundle`
is the same byte sequence. -/
theorem clientConfig_copies_service_and_bundle (c : V1.WebhookClientConfig)
    (svc : V1.ServiceReference) (h : c.Service = some svc) :
    ∃ out s, v1Tov1beta1ClientConfig c = .ok out ∧ out.Service = some s ∧
      s.Name = svc.Name ∧ s.Namespace = svc.Namespace ∧ s.Path = svc.Path ∧
      out.CABundle = c.CABundle ∧ out.CABundle.len = c.CABundle.len ∧
      out.CABundle.elems = c.CABundle.elems := by
  refine ⟨clientConfigImage c,
    { Name := svc.Name, Namespace := svc.Namespace, Path := svc.Path, Port := none },
    clientConfig_of_some c (by simp [h]), ?_, rfl, rfl, rfl, rfl, rfl, rfl⟩
  simp [clientConfigImage, h]

/-- Witness for C6 on the client configuration of Scenario A. -/
theorem clientConfig_copies_service_and_bundle_witness :
    (scenarioA (.of [0, 255])).ClientConfig.Service
      = some { Name := "svc", Namespace := "ns", Path := some "/mutate", Port := none } ∧
    ∃ out s, v1Tov1beta1ClientConfig (scenarioA (.of [0, 255])).ClientConfig = .ok out ∧
      out.Service = some s ∧ s.Name = "svc" ∧ s.Namespace = "ns" ∧ s.Path = some "/mutate" ∧
      out.CABundle = .of [0, 255] ∧ out.CABundle.len = 2 ∧ out.CABundle.elems = [0, 255] :=
  ⟨rfl, clientConfig_copies_service_and_bundle (scenarioA (.of [0, 255])).ClientConfig
    { Name := "svc", Namespace := "ns", Path := some "/mutate", Port := none } rfl⟩

/-- C7: the client-configuration mapper faults, with a nil dereference,
exactly when the canonical `Service` is unset; a configuration with only a
URL faults whatever its URL and CA bundle. -/
theorem clientConfig_faults_iff_service_unset (c : V1.WebhookClientConfig) :
    ((∃ e, v1Tov1beta1ClientConfig c = .error e) ↔ c.Service = none) ∧
    (v1Tov1beta1ClientConfig c = .error .nilDereference ↔ c.Service = none) ∧
    (∀ url bundle, v1Tov1beta1ClientConfig { URL := some url, Service := none, CABundle := bundle }
      = .error .nilDereference) := by
  refine ⟨?_, ?_, fun _ _ => rfl⟩
  · constructor
    · rintro ⟨e, he⟩; exact ((clientConfig_error_iff c e).mp he).1
    · intro h; exact ⟨_, clientConfig_of_none c h⟩
  · constructor
    · intro he; exact ((clientConfig_error_iff c _).mp he).1
    · exact clientConfig_of_none c

/-- C8: the mutating mapper and the validating mapper fault exactly when
some entry has `Service` unset, and return a list exactly when every entry
has it set; every fault is the nil dereference of the client-configuration
mapper on some entry, and a faulting call returns no list. -/
theorem webhooks_fault_iff_some_service_unset (M : Slice V1.MutatingWebhook)
    (V : Slice V1.ValidatingWebhook) :
    (((∃ e, v1Tov1beta1MutatingWebhooks M = .error e)
        ↔ ∃ w ∈ M.elems, w.ClientConfig.Service = none) ∧
      ((∃ out, v1Tov1beta1MutatingWebhooks M = .ok out) ↔ AllServicesSetM M) ∧
      (∀ e, v1Tov1beta1MutatingWebhooks M = .error e →
        e = .nilDereference ∧
        (∃ w ∈ M.elems, v1Tov1beta1ClientConfig w.ClientConfig = .error e) ∧
        ∀ out, v1Tov1beta1MutatingWebhooks M ≠ .ok out)) ∧
    (((∃ e, v1Tov1beta1ValidatingWebhooks V = .error e)
        ↔ ∃ w ∈ V.elems, w.ClientConfig.Service = none) ∧
      ((∃ out, v1Tov1beta1ValidatingWebhooks V = .ok out) ↔ AllServicesSetV V) ∧
      (∀ e, v1Tov1beta1ValidatingWebhooks V = .error e →
        e = .nilDereference ∧
        (∃ w ∈ V.elems, v1Tov1beta1ClientConfig w.ClientConfig = .error e) ∧
        ∀ out, v1Tov1beta1ValidatingWebhooks V ≠ .ok out)) := by
  refine ⟨⟨?_, mutating_ok_iff M, ?_⟩, ⟨?_, validating_ok_iff V, ?_⟩⟩
  · constructor
    · rintro ⟨e, he⟩
      have := mutating_error_is_nil M e he
      subst this
      exact (mutating_fault_iff M).mp he
    · intro h; exact ⟨_, (mutating_fault_iff M).mpr h⟩
  · intro e he
    refine ⟨mutating_error_is_nil M e he, mutating_error_source M e he, ?_⟩
    intro out hout; rw [he] at hout; cases hout
  · constructor
    · rintro ⟨e, he⟩
      have := validating_error_is_nil V e he
      subst this
      exact (validating_fault_iff V).mp he
    · intro h; exact ⟨_, (validating_fault_iff V).mpr h⟩
  · intro e he
    refine ⟨validating_error_is_nil V e he, validating_error_source V e he, ?_⟩
    intro out hout; rw [he] at hout; cases hout

/-- C9 as stated fails on the rule of Scenario A: after the rule mapper
has run, the assignment `out[0].APIGroups[0] = "x"` through the returned
slice changes the `APIGroups` of the input rule from `["apps"]` to `["x"]`,
because the returned rule holds the input rule's slice header. -/
theorem rules_output_shares_string_arrays :
    Mem.v1Tov1beta1Rules Mem.scenarioHeap Mem.scenarioRules
      = some (Mem.scenarioConverted, Mem.scenarioOut) ∧
    Mem.mutate Mem.scenarioConverted Mem.scenarioOut (.setAPIGroup 0 0 "x")
      = some Mem.scenarioAfterGroupWrite ∧
    Mem.viewV1Rules Mem.scenarioHeap Mem.scenarioRules = some (.of [scenarioARule]) ∧
    Mem.viewV1Rules Mem.scenarioAfterGroupWrite Mem.scenarioRules
      = some (.of [{ scenarioARule with
          Rule := { scenarioARule.Rule with APIGroups := .of ["x"] } }]) ∧
    Mem.viewV1Rules Mem.scenarioAfterGroupWrite Mem.scenarioRules
      ≠ Mem.viewV1Rules Mem.scenarioHeap Mem.scenarioRules := by
  refine ⟨by decide, by decide, by decide, by decide, by decide⟩

/-- C9, amended: the sequence returned by the rule mapper and the
`Operations` of each returned rule are newly allocated. On every heap in
which the argument denotes a list of canonical rules, the mapper returns;
the returned header points to an array at an address the heap did not have,
and the `Operations` header of the returned rule `i` to an array at a
further such address, one per rule; every object the heap had is left as it
was, so the argument still denotes the same list; assigning to any element
of the returned sequence or of any returned rule's `Operations` succeeds,
and after any such assignment every object the heap had is still as it was
and the argument still denotes the same list. The `APIGroups`,
`APIVersions` and `Resources` headers of a returned rule are those of the
input rule. -/
theorem rules_new_storage_frame (h : Mem.Heap) (R : Mem.Hdr)
    (rv : Slice V1.RuleWithOperations) (hv : Mem.viewV1Rules h R = some rv) :
    ∃ (h1 : Mem.Heap) (out : Mem.Hdr),
      Mem.v1Tov1beta1Rules h R = some (h1, out) ∧
      out = ⟨some h.length, 0, R.len⟩ ∧ h[h.length]? = none ∧
      (∀ a : Nat, a < h.length → h1[a]? = h[a]?) ∧
      Mem.viewV1Rules h1 R = some rv ∧
      (∀ (i : Nat) (src : Mem.RuleCell), Mem.loadV1Rule h R i = some src →
        ∃ c, Mem.loadLegacyRule h1 out i = some c ∧
          c.Operations = ⟨some (h.length + 1 + i), 0, src.Operations.len⟩ ∧
          h[h.length + 1 + i]? = none ∧
          c.APIGroups = src.APIGroups ∧ c.APIVersions = src.APIVersions ∧
          c.Resources = src.Resources ∧
          (∀ v, ∃ h2, Mem.mutate h1 out (.setRule i v) = some h2) ∧
          (∀ (j : Nat) v, j < src.Operations.len →
            ∃ h2, Mem.mutate h1 out (.setOperation i j v) = some h2)) ∧
      ∀ (m : Mem.Mutation) (h2 : Mem.Heap), m.onNewStorage = true →
        Mem.mutate h1 out m = some h2 →
        (∀ a : Nat, a < h.length → h2[a]? = h[a]?) ∧ Mem.viewV1Rules h2 R = some rv := by
  obtain ⟨h1, doneAll, hrun, _, hpre, hget, hdl, hper⟩ := Mem.v1Tov1beta1Rules_layout h R rv hv
  obtain ⟨cs, hcs, hload, _⟩ := Mem.viewV1Rules_load h R rv hv
  have s1 : Mem.SameCanonical h h1 := Mem.v1Tov1beta1Rules_same h h1 R _ hrun
  have hlt : ∀ (i : Nat) (src : Mem.RuleCell), Mem.loadV1Rule h R i = some src → i < R.len := by
    intro i src hsrc
    rw [hload i] at hsrc
    have := Mem.lt_length_of_getElem? cs i src hsrc
    omega
  have hlegacy : ∀ (i : Nat), i < R.len →
      Mem.loadLegacyRule h1 ⟨some h.length, 0, R.len⟩ i = doneAll[i]? := by
    intro i hi
    unfold Mem.loadLegacyRule
    simp only [hi, if_true, hget, Nat.zero_add]
  refine ⟨h1, ⟨some h.length, 0, R.len⟩, hrun, rfl, List.getElem?_eq_none (Nat.le_refl _),
    hpre, by rw [← Mem.viewV1Rules_congr s1 R, hv], ?_, ?_⟩
  · intro i src hsrc
    have hi : i < R.len := hlt i src hsrc
    obtain ⟨hd, cells, hc, hcl⟩ := hper i src hsrc
    have hlc : Mem.loadLegacyRule h1 ⟨some h.length, 0, R.len⟩ i
        = some (Mem.newCell (h.length + 1 + i) src) := by rw [hlegacy i hi, hd]
    refine ⟨Mem.newCell (h.length + 1 + i) src, hlc, rfl,
      List.getElem?_eq_none (by omega), rfl, rfl, rfl, ?_, ?_⟩
    · intro v
      exact Mem.storeLegacyRule_ok h1 ⟨some h.length, 0, R.len⟩ i v h.length doneAll hi rfl hget
        (by simp only [Nat.zero_add]; omega)
    · intro j v hj
      simp only [Mem.mutate, hlc]
      exact Mem.storeLegacyOperation_ok h1 _ j v (h.length + 1 + i) cells hj rfl hc
        (by simp only [Mem.newCell, Nat.zero_add]; omega)
  · intro m h2 hm hmut
    have s2 : Mem.SameCanonical h1 h2 := Mem.mutate_same h1 h2 _ m hm hmut
    refine ⟨?_, by rw [← Mem.viewV1Rules_congr (s1.trans s2) R, hv]⟩
    intro a ha
    cases m with
    | setRule i v =>
      obtain ⟨p, hp, hfr⟩ := Mem.storeLegacyRule_frame h1 h2 _ i v hmut
      cases hp
      rw [hfr a (Nat.ne_of_lt ha), hpre a ha]
    | setOperation i j v =>
      simp only [Mem.mutate] at hmut
      cases hlc : Mem.loadLegacyRule h1 ⟨some h.length, 0, R.len⟩ i with
      | none => rw [hlc] at hmut; cases hmut
      | some c =>
        rw [hlc] at hmut
        simp only at hmut
        have hi : i < R.len := by
          unfold Mem.loadLegacyRule at hlc
          split at hlc
          · assumption
          · cases hlc
        have hics : i < cs.length := by omega
        obtain ⟨hd, _⟩ := hper i cs[i] (by rw [hload i, List.getElem?_eq_getElem hics])
        rw [hlegacy i hi, hd] at hlc
        cases hlc
        obtain ⟨p, hp, hfr⟩ := Mem.storeLegacyOperation_frame h1 h2 _ j v hmut
        cases hp
        rw [hfr a (by omega), hpre a ha]
    | setAPIGroup i k v => cases hm
    | setAPIVersion i k v => cases hm
    | setResource i k v => cases hm

/-- Witness for the amended C9: on the rule of Scenario A the mapper
returns `scenarioConverted` and the header of the new array at address 5;
the assignment `out[0].Operations[1] = "DELETE"` lands in the new array at
address 6 and leaves the input rule as it was. -/
theorem rules_new_storage_frame_witness :
    Mem.viewV1Rules Mem.scenarioHeap Mem.scenarioRules = some (.of [scenarioARule]) ∧
    (∃ (h1 : Mem.Heap) (out : Mem.Hdr),
      Mem.v1Tov1beta1Rules Mem.scenarioHeap Mem.scenarioRules = some (h1, out) ∧
      out = ⟨some Mem.scenarioHeap.length, 0, Mem.scenarioRules.len⟩ ∧ Mem.scenarioHeap[Mem.scenarioHeap.length]? = none ∧
      (∀ a : Nat, a < Mem.scenarioHeap.length → h1[a]? = Mem.scenarioHeap[a]?) ∧
      Mem.viewV1Rules h1 Mem.scenarioRules = some (.of [scenarioARule]) ∧
      (∀ (i : Nat) (src : Mem.RuleCell), Mem.loadV1Rule Mem.scenarioHeap Mem.scenarioRules i = some src →
        ∃ c, Mem.loadLegacyRule h1 out i = some c ∧
          c.Operations = ⟨some (Mem.scenarioHeap.length + 1 + i), 0, src.Operations.len⟩ ∧
          Mem.scenarioHeap[Mem.scenarioHeap.length + 1 + i]? = none ∧
          c.APIGroups = src.APIGroups ∧ c.APIVersions = src.APIVersions ∧
          c.Resources = src.Resources ∧
          (∀ v, ∃ h2, Mem.mutate h1 out (.setRule i v) = some h2) ∧
          (∀ (j : Nat) v, j < src.Operations.len →
            ∃ h2, Mem.mutate h1 out (.setOperation i j v) = some h2)) ∧
      ∀ (m : Mem.Mutation) (h2 : Mem.Heap), m.onNewStorage = true →
        Mem.mutate h1 out m = some h2 →
        (∀ a : Nat, a < Mem.scenarioHeap.length → h2[a]? = Mem.scenarioHeap[a]?) ∧ Mem.viewV1Rules h2 Mem.scenarioRules = some (.of [scenarioARule])) ∧
    Mem.v1Tov1beta1Rules Mem.scenarioHeap Mem.scenarioRules
      = some (Mem.scenarioConverted, Mem.scenarioOut) ∧
    Mem.mutate Mem.scenarioConverted Mem.scenarioOut (.setOperation 0 1 ⟨"DELETE"⟩)
      = some Mem.scenarioAfterOperationWrite ∧
    Mem.viewV1Rules Mem.scenarioAfterOperationWrite Mem.scenarioRules
      = some (.of [scenarioARule]) :=
  ⟨by decide,
    rules_new_storage_frame Mem.scenarioHeap Mem.scenarioRules (.of [scenarioARule])
      (by decide),
    by decide, by decide, by decide⟩

/-- C10: for a list of canonical mutating entries and a list of canonical
validating entries of the same length that agree index by index on `Name`,
`ClientConfig`, `FailurePolicy`, `MatchPolicy`, `SideEffects` and `Rules`,
the mutating mapper faults exactly when the validating mapper faults (with
the same fault), and when they return, the two outputs have the same length
and agree index by index on those six fields. -/
theorem mutating_validating_agree (M : Slice V1.MutatingWebhook)
    (V : Slice V1.ValidatingWebhook) (hlen : M.len = V.len)
    (h : ∀ (i : Nat) m v, M.elems[i]? = some m → V.elems[i]? = some v → AgreeCanonical m v) :
    ((∃ e, v1Tov1beta1MutatingWebhooks M = .error e)
      ↔ (∃ e, v1Tov1beta1ValidatingWebhooks V = .error e)) ∧
    (∀ e, v1Tov1beta1MutatingWebhooks M = .error e
      ↔ v1Tov1beta1ValidatingWebhooks V = .error e) ∧
    ((∃ om, v1Tov1beta1MutatingWebhooks M = .ok om)
      ↔ (∃ ov, v1Tov1beta1ValidatingWebhooks V = .ok ov)) ∧
    (∀ om ov, v1Tov1beta1MutatingWebhooks M = .ok om →
      v1Tov1beta1ValidatingWebhooks V = .ok ov →
      om.len = ov.len ∧
      ∀ i, i < om.len →
        ∃ a b, om.elems[i]? = some a ∧ ov.elems[i]? = some b ∧ AgreeLegacy a b) := by
  have hcc : ∀ (i : Nat) m v, M.elems[i]? = some m → V.elems[i]? = some v →
      m.ClientConfig = v.ClientConfig := fun i m v hm hv => (h i m v hm hv).2.1
  have hcc2 : ∀ (i : Nat) v m, V.elems[i]? = some v → M.elems[i]? = some m →
      v.ClientConfig = m.ClientConfig := fun i v m hv hm => (hcc i m v hm hv).symm
  have hunset : (∃ w ∈ M.elems, w.ClientConfig.Service = none)
      ↔ (∃ w ∈ V.elems, w.ClientConfig.Service = none) :=
    ⟨unset_service_transfers M.elems V.elems (fun w => w.ClientConfig)
        (fun w => w.ClientConfig) hlen hcc,
      unset_service_transfers V.elems M.elems (fun w => w.ClientConfig)
        (fun w => w.ClientConfig) hlen.symm hcc2⟩
  have hnil : v1Tov1beta1MutatingWebhooks M = .error .nilDereference
      ↔ v1Tov1beta1ValidatingWebhooks V = .error .nilDereference := by
    rw [mutating_fault_iff, validating_fault_iff]; exact hunset
  have herr : ∀ e, v1Tov1beta1MutatingWebhooks M = .error e
      ↔ v1Tov1beta1ValidatingWebhooks V = .error e := by
    intro e
    constructor
    · intro he
      have := mutating_error_is_nil M e he
      subst this
      exact hnil.mp he
    · intro he
      have := validating_error_is_nil V e he
      subst this
      exact hnil.mpr he
  have hall : AllServicesSetM M ↔ AllServicesSetV V := by
    constructor
    · intro hM w hw hs
      obtain ⟨m, hm, hms⟩ := hunset.mpr ⟨w, hw, hs⟩
      exact hM m hm hms
    · intro hV w hw hs
      obtain ⟨v, hv, hvs⟩ := hunset.mp ⟨w, hw, hs⟩
      exact hV v hv hvs
  refine ⟨?_, herr, ?_, ?_⟩
  · exact ⟨fun ⟨e, he⟩ => ⟨e, (herr e).mp he⟩, fun ⟨e, he⟩ => ⟨e, (herr e).mpr he⟩⟩
  · rw [mutating_ok_iff, validating_ok_iff]; exact hall
  · intro om ov hom hov
    have hM : AllServicesSetM M := (mutating_ok_iff M).mp ⟨om, hom⟩
    have hV : AllServicesSetV V := (validating_ok_iff V).mp ⟨ov, hov⟩
    rw [mutating_eq M hM] at hom
    rw [validating_eq V hV] at hov
    cases hom
    cases hov
    refine ⟨by rw [len_appendAll_null_map, len_appendAll_null_map]; exact hlen, ?_⟩
    intro i hi
    rw [len_appendAll_null_map] at hi
    have hi2 : i < V.elems.length := by
      have : M.elems.length = V.elems.length := hlen
      omega
    have hm : M.elems[i]? = some (M.elems[i]) := List.getElem?_eq_getElem hi
    have hv : V.elems[i]? = some (V.elems[i]) := List.getElem?_eq_getElem hi2
    exact ⟨mutatingImage M.elems[i], validatingImage V.elems[i],
      by rw [getElem?_appendAll_null_map, hm]; rfl,
      by rw [getElem?_appendAll_null_map, hv]; rfl,
      agree_images _ _ (h i _ _ hm hv)⟩

/-- Witness for C10 on the Scenario A entry and a validating entry with the
same mapped fields. -/
theorem mutating_validating_agree_witness :
    (Slice.of [scenarioA (.of [9])]).len = (Slice.of [scenarioAValidating (.of [9])]).len ∧
    AgreeCanonical (scenarioA (.of [9])) (scenarioAValidating (.of [9])) ∧
    ((∃ om, v1Tov1beta1MutatingWebhooks (.of [scenarioA (.of [9])]) = .ok om)
      ↔ (∃ ov, v1Tov1beta1ValidatingWebhooks (.of [scenarioAValidating (.of [9])]) = .ok ov)) ∧
    (∀ om ov, v1Tov1beta1MutatingWebhooks (.of [scenarioA (.of [9])]) = .ok om →
      v1Tov1beta1ValidatingWebhooks (.of [scenarioAValidating (.of [9])]) = .ok ov →
      om.len = ov.len ∧
      ∀ i, i < om.len →
        ∃ a b, om.elems[i]? = some a ∧ ov.elems[i]? = some b ∧ AgreeLegacy a b) :=
  have hagree : AgreeCanonical (scenarioA (.of [9])) (scenarioAValidating (.of [9])) := by
    decide
  have h := mutating_validating_agree (.of [scenarioA (.of [9])])
    (.of [scenarioAValidating (.of [9])]) rfl
    (by
      intro i m v hm hv
      cases i with
      | zero =>
        simp only [Slice.elems, List.getElem?_cons_zero, Option.some.injEq] at hm hv
        subst hm; subst hv
        exact hagree
      | succ n => simp [Slice.elems] at hm)
  ⟨rfl, hagree, h.2.2.1, h.2.2.2⟩

/-- C11: the rule mapper and the three enum downgrade functions return on
every input without a fault. The rule mapper returns a list for every rule
list, nil and empty ones and rules with nil or empty slices included; its
inner loop returns for every `Operations`; every store of either loop hits
an index below the length of the slice that `make` allocated, while a store
at the length itself would panic; each enum function, with its dereference
as a fallible step, returns the value of the function; and over the heap,
where every load and store is checked against the header's length and both
loops run for `len` iterations, the mapper returns on every heap in which
its argument denotes the rule list. -/
theorem rules_and_enums_never_fault (R : Slice V1.RuleWithOperations)
    (ops : Slice V1.OperationType) :
    (∃ out, v1Tov1beta1Rules R = .ok out ∧ out.len = R.len) ∧
    (∀ e, v1Tov1beta1Rules R ≠ .error e) ∧
    (∃ o, v1Tov1beta1Rules.operations ops = .ok o ∧ o.len = ops.len) ∧
    (∀ e, v1Tov1beta1Rules.operations ops ≠ .error e) ∧
    (∀ (i : Nat) (x : V1beta1.RuleWithOperations), i < R.len →
      ∃ s, (Slice.make V1beta1.zeroRuleWithOperations R.len).setIdx i x = .ok s ∧
        s.len = R.len) ∧
    (∀ (j : Nat) (x : V1beta1.OperationType), j < ops.len →
      ∃ s, (Slice.make V1beta1.zeroOperationType ops.len).setIdx j x = .ok s ∧
        s.len = ops.len) ∧
    (∀ x, (Slice.make V1beta1.zeroRuleWithOperations R.len).setIdx R.len x
      = .error .indexOutOfRange) ∧
    (∀ x, (Slice.make V1beta1.zeroOperationType ops.len).setIdx ops.len x
      = .error .indexOutOfRange) ∧
    v1Tov1beta1Rules .null = .ok (.of []) ∧
    v1Tov1beta1Rules (.of []) = .ok (.of []) ∧
    v1Tov1beta1Rules (.of [nilRule, emptyRule])
      = .ok (.of [{ Operations := .of []
                    Rule := { APIGroups := .null, APIVersions := .null, Resources := .null,
                              Scope := none } },
                  { Operations := .of []
                    Rule := { APIGroups := .of [], APIVersions := .of [], Resources := .of [],
                              Scope := none } }]) ∧
    (∀ p, v1Tov1beta1FailurePolicy.steps p = .ok (v1Tov1beta1FailurePolicy p)) ∧
    (∀ p, v1Tov1beta1MatchPolicy.steps p = .ok (v1Tov1beta1MatchPolicy p)) ∧
    (∀ p, v1Tov1beta1SideEffects.steps p = .ok (v1Tov1beta1SideEffects p)) ∧
    (∀ (h : Mem.Heap) (hdr : Mem.Hdr), Mem.viewV1Rules h hdr = some R →
      ∃ h2 out res, Mem.v1Tov1beta1Rules h hdr = some (h2, out) ∧
        v1Tov1beta1Rules R = .ok res ∧ Mem.viewLegacyRules h2 out = some res) := by
  have hmake : ∀ {γ : Type} (z : γ) (n : Nat), (Slice.make z n).len = n := by
    intro γ z n; simp [Slice.make, Slice.len, Slice.elems]
  have hstore : ∀ {γ : Type} (z : γ) (n i : Nat) (x : γ), i < n →
      ∃ s, (Slice.make z n).setIdx i x = .ok s ∧ s.len = n := by
    intro γ z n i x hi
    refine ⟨.of ((Slice.make z n).elems.set i x), ?_, ?_⟩
    · simp [Slice.setIdx, hmake, hi]
    · simp [Slice.make, Slice.len, Slice.elems]
  have hlive : ∀ {γ : Type} (z : γ) (n : Nat) (x : γ),
      (Slice.make z n).setIdx n x = .error .indexOutOfRange := by
    intro γ z n x; simp [Slice.setIdx, hmake]
  refine ⟨⟨_, rules_eq R, by simp [Slice.len, Slice.elems]⟩, ?_,
    ⟨_, operations_eq ops, by simp [Slice.len, Slice.elems]⟩, ?_,
    fun i x hi => hstore _ _ i x hi, fun j x hj => hstore _ _ j x hj,
    fun x => hlive _ _ x, fun x => hlive _ _ x,
    rules_eq .null, rules_eq (.of []), rules_eq (.of [nilRule, emptyRule]), ?_, ?_, ?_,
    fun h hdr hv => Mem.v1Tov1beta1Rules_refines h hdr R hv⟩
  · intro e he; rw [rules_eq] at he; cases he
  · intro e he; rw [operations_eq] at he; cases he
  · intro p; cases p <;> rfl
  · intro p; cases p <;> rfl
  · intro p; cases p <;> rfl

/-- C12: for every byte string, `unmarshalBoth` splits it on `"\n---\n"`,
drops the first piece and keeps the rest as documents. The split has one
piece more than the delimiter has non-overlapping occurrences from left to
right, so taking the tail never panics and the number of documents is the
number of occurrences; the document-count assertion fails exactly when that
number is not two; and with two documents the first is deserialised as the
mutating and the second as the validating configuration. -/
theorem unmarshalBoth_documents {M V : Type} (um : List Byte → Option M)
    (uv : List Byte → Option V) (input : List Byte) :
    (Harness.split input Harness.delimiter).length
      = Harness.count input Harness.delimiter + 1 ∧
    Harness.sliceFrom1 (Harness.split input Harness.delimiter)
      = .ok ((Harness.split input Harness.delimiter).drop 1) ∧
    ((Harness.split input Harness.delimiter).drop 1).length
      = Harness.count input Harness.delimiter ∧
    (∃ first, Harness.split input Harness.delimiter
        = first :: (Harness.split input Harness.delimiter).drop 1 ∧
      first ++ (((Harness.split input Harness.delimiter).drop 1).map
        (fun d => Harness.delimiter ++ d)).flatten = input) ∧
    (∀ g, input.length ≤ g →
      Harness.countLoop Harness.delimiter g input = Harness.count input Harness.delimiter) ∧
    Harness.unmarshalBoth um uv input ≠ .error .sliceBoundsOutOfRange ∧
    Harness.unmarshalBoth um uv input ≠ .error .indexOutOfRange ∧
    ((∃ n, Harness.unmarshalBoth um uv input = .error (.wrongDocumentCount n))
      ↔ Harness.count input Harness.delimiter ≠ 2) ∧
    (Harness.count input Harness.delimiter ≠ 2 →
      Harness.unmarshalBoth um uv input
        = .error (.wrongDocumentCount (Harness.count input Harness.delimiter))) ∧
    (Harness.count input Harness.delimiter = 2 →
      ∃ d0 d1, (Harness.split input Harness.delimiter).drop 1 = [d0, d1] ∧
        (um d0 = none → Harness.unmarshalBoth um uv input = .error .notMutating) ∧
        (∀ m, um d0 = some m → uv d1 = none →
          Harness.unmarshalBoth um uv input = .error .notValidating) ∧
        (∀ m v, um d0 = some m → uv d1 = some v →
          Harness.unmarshalBoth um uv input = .ok (m, v))) ∧
    Harness.split Harness.sampleFile Harness.delimiter = [[97], [109], [118]] ∧
    Harness.unmarshalBoth (fun d => some d) (fun d => some d) Harness.sampleFile
      = .ok ([109], [118]) ∧
    Harness.split Harness.overlappingFile Harness.delimiter = [[], [45, 45, 45, 10]] ∧
    Harness.unmarshalBoth (fun d => some d) (fun d => some d) Harness.overlappingFile
      = .error (.wrongDocumentCount 1) ∧
    Harness.unmarshalBoth (fun d => some d) (fun d => some d) []
      = .error (.wrongDocumentCount 0) := by
  obtain ⟨hs, hl⟩ := Harness.sliceFrom1_split input
  have hcases : Harness.count input Harness.delimiter ≠ 2 ∨
      Harness.count input Harness.delimiter = 2 := by omega
  have hno : ∀ e : Harness.Failure, (e = .sliceBoundsOutOfRange ∨ e = .indexOutOfRange) →
      Harness.unmarshalBoth um uv input ≠ .error e := by
    intro e he heq
    rcases hcases with hc | hc
    · rw [Harness.unmarshalBoth_wrong_count um uv input hc] at heq
      rcases he with rfl | rfl <;> cases heq
    · obtain ⟨d0, d1, _, h1, h2, h3⟩ := Harness.unmarshalBoth_two um uv input hc
      cases h0 : um d0 with
      | none => rw [h1 h0] at heq; rcases he with rfl | rfl <;> cases heq
      | some m =>
        cases hv : uv d1 with
        | none => rw [h2 m h0 hv] at heq; rcases he with rfl | rfl <;> cases heq
        | some v => rw [h3 m v h0 hv] at heq; cases heq
  refine ⟨Harness.split_length input _, hs, hl, ?_, ?_, hno _ (Or.inl rfl), hno _ (Or.inr rfl),
    ?_, Harness.unmarshalBoth_wrong_count um uv input, Harness.unmarshalBoth_two um uv input,
    by decide, rfl, by decide, rfl, rfl⟩
  · rw [Harness.split_eq]
    obtain ⟨p, ps, hp, hj⟩ := Harness.splitLoop_join Harness.delimiter
      (Harness.count input Harness.delimiter) input
    exact ⟨p, by rw [hp]; rfl, by rw [hp]; exact hj⟩
  · intro g hg
    exact Harness.countLoop_fuel Harness.delimiter (by decide) input.length input
      (Nat.le_refl _) g hg
  · constructor
    · rintro ⟨n, hn⟩ hc
      obtain ⟨d0, d1, _, h1, h2, h3⟩ := Harness.unmarshalBoth_two um uv input hc
      cases h0 : um d0 with
      | none => rw [h1 h0] at hn; cases hn
      | some m =>
        cases hv : uv d1 with
        | none => rw [h2 m h0 hv] at hn; cases hn
        | some v => rw [h3 m v h0 hv] at hn; cases hn
    · intro hc
      exact ⟨_, Harness.unmarshalBoth_wrong_count um uv input hc⟩

/-- C13: the output of the entry mappers depends only on the mapped fields.
Two lists of canonical entries with every `Service` set that agree, entry
by entry, on the name, the service's name, namespace and path, the CA
bundle, the three optional enums and each rule's `APIGroups`,
`APIVersions`, `Resources` and operations are mapped to the same result,
whatever their other fields hold; and in every output entry each field
outside the mapped ones has its zero value. -/
theorem webhooks_depend_on_mapped_fields (A B : Slice V1.MutatingWebhook)
    (C D : Slice V1.ValidatingWebhook)
    (hA : AllServicesSetM A) (hB : AllServicesSetM B)
    (hC : AllServicesSetV C) (hD : AllServicesSetV D)
    (hAB : A.elems.map mappedMutating = B.elems.map mappedMutating)
    (hCD : C.elems.map mappedValidating = D.elems.map mappedValidating) :
    (∃ out, v1Tov1beta1MutatingWebhooks A = .ok out ∧
      v1Tov1beta1MutatingWebhooks B = .ok out ∧ ∀ o ∈ out.elems, UnmappedZeroM o) ∧
    (∃ out, v1Tov1beta1ValidatingWebhooks C = .ok out ∧
      v1Tov1beta1ValidatingWebhooks D = .ok out ∧ ∀ o ∈ out.elems, UnmappedZeroV o) := by
  constructor
  · refine ⟨_, mutating_eq A hA, ?_, ?_⟩
    · rw [mutating_eq B hB,
        map_eq_of_factor mappedMutating mutatingImage mutatingImage_of_mapped _ _ hAB]
    · intro o ho
      rw [appendAll_null_elems, List.mem_map] at ho
      obtain ⟨w, _, rfl⟩ := ho
      exact mutatingImage_unmapped w
  · refine ⟨_, validating_eq C hC, ?_, ?_⟩
    · rw [validating_eq D hD,
        map_eq_of_factor mappedValidating validatingImage validatingImage_of_mapped _ _ hCD]
    · intro o ho
      rw [appendAll_null_elems, List.mem_map] at ho
      obtain ⟨w, _, rfl⟩ := ho
      exact validatingImage_unmapped w

/-- Witness for C13: the Scenario A entry and the same entry with every
unmapped field populated; a validating entry with unmapped fields populated
and the same entry with them cleared. -/
theorem webhooks_depend_on_mapped_fields_witness :
    AllServicesSetM (.of [scenarioA (.of [1])]) ∧
    AllServicesSetM (.of [scenarioAUnmapped (.of [1])]) ∧
    scenarioA (.of [1]) ≠ scenarioAUnmapped (.of [1]) ∧
    [scenarioA (.of [1])].map mappedMutating = [scenarioAUnmapped (.of [1])].map mappedMutating ∧
    (∃ out, v1Tov1beta1MutatingWebhooks (.of [scenarioA (.of [1])]) = .ok out ∧
      v1Tov1beta1MutatingWebhooks (.of [scenarioAUnmapped (.of [1])]) = .ok out ∧
      ∀ o ∈ out.elems, UnmappedZeroM o) ∧
    (∃ out, v1Tov1beta1ValidatingWebhooks (.of [sampleValidating]) = .ok out ∧
      v1Tov1beta1ValidatingWebhooks
        (.of [{ sampleValidating with
                ClientConfig := { sampleValidating.ClientConfig with URL := none }
                TimeoutSeconds := none
                NamespaceSelector := none }]) = .ok out ∧
      ∀ o ∈ out.elems, UnmappedZeroV o) :=
  have h := webhooks_depend_on_mapped_fields (.of [scenarioA (.of [1])])
    (.of [scenarioAUnmapped (.of [1])]) (.of [sampleValidating])
    (.of [{ sampleValidating with
            ClientConfig := { sampleValidating.ClientConfig with URL := none }
            TimeoutSeconds := none
            NamespaceSelector := none }])
    (by decide) (by decide) (by decide) (by decide) (by decide) (by decide)
  ⟨by decide, by decide, by decide, by decide, h.1, h.2⟩

/-- C14: the mappers distribute over concatenation. If the entries of `Z`
are those of `X` followed by those of `Y` and every `Service` is set, the
entries that the mutating (validating) mapper returns for `Z` are those it
returns for `X` followed by those it returns for `Y`; the rule mapper does
the same for rule lists; and the entries returned for a list are, index by
index, the entries returned for its one-entry lists. -/
theorem mappers_distribute_over_append
    (X Y Z : Slice V1.MutatingWebhook) (X2 Y2 Z2 : Slice V1.ValidatingWebhook)
    (R S T : Slice V1.RuleWithOperations)
    (hX : AllServicesSetM X) (hY : AllServicesSetM Y) (hZ : Z.elems = X.elems ++ Y.elems)
    (hX2 : AllServicesSetV X2) (hY2 : AllServicesSetV Y2)
    (hZ2 : Z2.elems = X2.elems ++ Y2.elems)
    (hT : T.elems = R.elems ++ S.elems) :
    (∃ ox oy oz, v1Tov1beta1MutatingWebhooks X = .ok ox ∧
      v1Tov1beta1MutatingWebhooks Y = .ok oy ∧ v1Tov1beta1MutatingWebhooks Z = .ok oz ∧
      oz.elems = ox.elems ++ oy.elems ∧
      ∀ (i : Nat) w, Z.elems[i]? = some w →
        ∃ o, v1Tov1beta1MutatingWebhooks (.of [w]) = .ok (.of [o]) ∧ oz.elems[i]? = some o) ∧
    (∃ ox oy oz, v1Tov1beta1ValidatingWebhooks X2 = .ok ox ∧
      v1Tov1beta1ValidatingWebhooks Y2 = .ok oy ∧ v1Tov1beta1ValidatingWebhooks Z2 = .ok oz ∧
      oz.elems = ox.elems ++ oy.elems ∧
      ∀ (i : Nat) w, Z2.elems[i]? = some w →
        ∃ o, v1Tov1beta1ValidatingWebhooks (.of [w]) = .ok (.of [o]) ∧
          oz.elems[i]? = some o) ∧
    (∃ or os ot, v1Tov1beta1Rules R = .ok or ∧ v1Tov1beta1Rules S = .ok os ∧
      v1Tov1beta1Rules T = .ok ot ∧ ot.elems = or.elems ++ os.elems ∧
      ot = .of (or.elems ++ os.elems) ∧
      ∀ (i : Nat) r, T.elems[i]? = some r →
        ∃ o, v1Tov1beta1Rules (.of [r]) = .ok (.of [o]) ∧ ot.elems[i]? = some o) := by
  have hZall : AllServicesSetM Z := by
    intro w hw
    rw [hZ, List.mem_append] at hw
    rcases hw with hw | hw
    · exact hX w hw
    · exact hY w hw
  have hZ2all : AllServicesSetV Z2 := by
    intro w hw
    rw [hZ2, List.mem_append] at hw
    rcases hw with hw | hw
    · exact hX2 w hw
    · exact hY2 w hw
  refine ⟨⟨_, _, _, mutating_eq X hX, mutating_eq Y hY, mutating_eq Z hZall, ?_, ?_⟩,
    ⟨_, _, _, validating_eq X2 hX2, validating_eq Y2 hY2, validating_eq Z2 hZ2all, ?_, ?_⟩,
    ⟨_, _, _, rules_eq R, rules_eq S, rules_eq T, ?_, ?_, ?_⟩⟩
  · simp only [appendAll_null_elems, hZ, List.map_append]
  · intro i w hw
    have hws : w.ClientConfig.Service ≠ none := hZall w (List.getElem?_mem hw)
    refine ⟨mutatingImage w, ?_, ?_⟩
    · rw [mutating_eq (.of [w]) (by intro x hx; simp [Slice.elems] at hx; subst hx; exact hws)]
      rfl
    · rw [getElem?_appendAll_null_map, hw]; rfl
  · simp only [appendAll_null_elems, hZ2, List.map_append]
  · intro i w hw
    have hws : w.ClientConfig.Service ≠ none := hZ2all w (List.getElem?_mem hw)
    refine ⟨validatingImage w, ?_, ?_⟩
    · rw [validating_eq (.of [w]) (by intro x hx; simp [Slice.elems] at hx; subst hx; exact hws)]
      rfl
    · rw [getElem?_appendAll_null_map, hw]; rfl
  · simp only [Slice.elems_of, hT, List.map_append]
  · simp only [Slice.elems_of, hT, List.map_append]
  · intro i r hr
    exact ⟨ruleImage r, rules_eq (.of [r]), by rw [Slice.elems_of, List.getElem?_map, hr]; rfl⟩

/-- Witness for C14: the Scenario A entry followed by the same entry with
its unmapped fields populated, two different validating entries, and two
one-rule lists; every operand is non-empty and so is every result. -/
theorem mappers_distribute_over_append_witness :
    AllServicesSetM (.of [scenarioA .null]) ∧
    AllServicesSetM (.of [scenarioAUnmapped (.of [1])]) ∧
    AllServicesSetV (.of [sampleValidating]) ∧
    AllServicesSetV (.of [scenarioAValidating (.of [9])]) ∧
    (∃ ox oy oz, v1Tov1beta1MutatingWebhooks (.of [scenarioA .null]) = .ok ox ∧
      v1Tov1beta1MutatingWebhooks (.of [scenarioAUnmapped (.of [1])]) = .ok oy ∧
      v1Tov1beta1MutatingWebhooks (.of [scenarioA .null, scenarioAUnmapped (.of [1])])
        = .ok oz ∧
      oz.elems = ox.elems ++ oy.elems ∧ ox.len = 1 ∧ oy.len = 1 ∧ oz.len = 2 ∧
      ∀ (i : Nat) w, [scenarioA .null, scenarioAUnmapped (.of [1])][i]? = some w →
        ∃ o, v1Tov1beta1MutatingWebhooks (.of [w]) = .ok (.of [o]) ∧ oz.elems[i]? = some o) ∧
    (∃ ox oy oz, v1Tov1beta1ValidatingWebhooks (.of [sampleValidating]) = .ok ox ∧
      v1Tov1beta1ValidatingWebhooks (.of [scenarioAValidating (.of [9])]) = .ok oy ∧
      v1Tov1beta1ValidatingWebhooks (.of [sampleValidating, scenarioAValidating (.of [9])])
        = .ok oz ∧
      oz.elems = ox.elems ++ oy.elems ∧ ox.len = 1 ∧ oy.len = 1 ∧ oz.len = 2 ∧
      ∀ (i : Nat) w, [sampleValidating, scenarioAValidating (.of [9])][i]? = some w →
        ∃ o, v1Tov1beta1ValidatingWebhooks (.of [w]) = .ok (.of [o]) ∧
          oz.elems[i]? = some o) ∧
    (∃ or os ot, v1Tov1beta1Rules (.of [scenarioARule]) = .ok or ∧
      v1Tov1beta1Rules (.of [nilRule]) = .ok os ∧
      v1Tov1beta1Rules (.of [scenarioARule, nilRule]) = .ok ot ∧
      ot.elems = or.elems ++ os.elems ∧ ot = .of (or.elems ++ os.elems) ∧
      ∀ (i : Nat) r, [scenarioARule, nilRule][i]? = some r →
        ∃ o, v1Tov1beta1Rules (.of [r]) = .ok (.of [o]) ∧ ot.elems[i]? = some o) := by
  have h := mappers_distribute_over_append
    (.of [scenarioA .null]) (.of [scenarioAUnmapped (.of [1])])
    (.of [scenarioA .null, scenarioAUnmapped (.of [1])])
    (.of [sampleValidating]) (.of [scenarioAValidating (.of [9])])
    (.of [sampleValidating, scenarioAValidating (.of [9])])
    (.of [scenarioARule]) (.of [nilRule]) (.of [scenarioARule, nilRule])
    (by decide) (by decide) rfl (by decide) (by decide) rfl rfl
  obtain ⟨⟨ox, oy, oz, h1, h2, h3, h4, h5⟩, ⟨px, py, pz, g1, g2, g3, g4, g5⟩, hr⟩ := h
  refine ⟨by decide, by decide, by decide, by decide,
    ⟨ox, oy, oz, h1, h2, h3, h4, ?_, ?_, ?_, h5⟩,
    ⟨px, py, pz, g1, g2, g3, g4, ?_, ?_, ?_, g5⟩, hr⟩
  · rw [mutating_eq _ (by decide)] at h1; cases h1; rfl
  · rw [mutating_eq _ (by decide)] at h2; cases h2; rfl
  · rw [mutating_eq _ (by decide)] at h3; cases h3; rfl
  · rw [validating_eq _ (by decide)] at g1; cases g1; rfl
  · rw [validating_eq _ (by decide)] at g2; cases g2; rfl
  · rw [validating_eq _ (by decide)] at g3; cases g3; rfl

/-- C15: absent and empty sequences. Given no entries, as a nil or as an
empty list, the entry mappers return the nil sequence, and given at least
one entry a non-nil one. The rule mapper returns a non-nil sequence for
every rule list, the empty non-nil one for a nil or empty list, and every
returned rule's `Operations` is non-nil, empty for nil or empty input
`Operations`. A returned rule's `APIGroups`, `APIVersions` and `Resources`
are nil exactly when the input rule's are, and the optional enums are nil
exactly when the input's are. -/
theorem absent_and_empty_sequences (R : Slice V1.RuleWithOperations) :
    v1Tov1beta1MutatingWebhooks .null = .ok .null ∧
    v1Tov1beta1MutatingWebhooks (.of []) = .ok .null ∧
    v1Tov1beta1ValidatingWebhooks .null = .ok .null ∧
    v1Tov1beta1ValidatingWebhooks (.of []) = .ok .null ∧
    (∀ (w : V1.MutatingWebhook) ws out,
      v1Tov1beta1MutatingWebhooks (.of (w :: ws)) = .ok out → out.isNil = false) ∧
    (∀ (w : V1.ValidatingWebhook) ws out,
      v1Tov1beta1ValidatingWebhooks (.of (w :: ws)) = .ok out → out.isNil = false) ∧
    v1Tov1beta1Rules .null = .ok (.of []) ∧
    v1Tov1beta1Rules (.of []) = .ok (.of []) ∧
    v1Tov1beta1Rules.operations .null = .ok (.of []) ∧
    v1Tov1beta1Rules.operations (.of []) = .ok (.of []) ∧
    (∃ out, v1Tov1beta1Rules R = .ok out ∧ out.isNil = false ∧
      ∀ (i : Nat) r, R.elems[i]? = some r →
        ∃ o, out.elems[i]? = some o ∧ o.Operations.isNil = false ∧
          (r.Operations.elems = [] → o.Operations = .of []) ∧
          o.Rule.APIGroups.isNil = r.Rule.APIGroups.isNil ∧
          o.Rule.APIVersions.isNil = r.Rule.APIVersions.isNil ∧
          o.Rule.Resources.isNil = r.Rule.Resources.isNil) ∧
    v1Tov1beta1FailurePolicy none = none ∧
    v1Tov1beta1MatchPolicy none = none ∧
    v1Tov1beta1SideEffects none = none := by
  refine ⟨rfl, rfl, rfl, rfl, ?_, ?_, rules_eq .null, rules_eq (.of []),
    operations_eq .null, operations_eq (.of []), ?_, rfl, rfl, rfl⟩
  · intro w ws out hout
    have hall : AllServicesSetM (.of (w :: ws)) := (mutating_ok_iff _).mp ⟨out, hout⟩
    rw [mutating_eq _ hall] at hout
    cases hout
    rfl
  · intro w ws out hout
    have hall : AllServicesSetV (.of (w :: ws)) := (validating_ok_iff _).mp ⟨out, hout⟩
    rw [validating_eq _ hall] at hout
    cases hout
    rfl
  · refine ⟨_, rules_eq R, rfl, ?_⟩
    intro i r hr
    refine ⟨ruleImage r, by rw [Slice.elems_of, List.getElem?_map, hr]; rfl, rfl, ?_,
      rfl, rfl, rfl⟩
    intro hnil
    simp [ruleImage, hnil]

end Webhook
